import Mathlib

/-!
Verification of the descriptor-parsing / geo-tagging pipeline of the
`geoasset` repository (files `proxy-build/main.py` and
`proxy-build/Asset/generate_singbox_config.py`).

The Python code is shallowly embedded: strings are `String`/`List Char`,
Python `int` is `Nat` (all values in scope are non-negative), dicts are
association lists, functions that may raise and are wrapped in
`try/except` return `Option`.  External collaborators (the GeoIP
databases, DNS, `ipaddress` classification) are passed in as function
parameters, mirroring the spec's view of them as opaque lookup services.
-/

namespace GeoAsset

/-! ## Character and list utilities -/

/-- Whitespace characters recognised by Python's `str.strip()` / `str.split()`. -/
def isWsChar (c : Char) : Bool :=
  c = ' ' || c = '\t' || c = '\n' || c = '\r' || c = '\x0b' || c = '\x0c'

/-- ASCII lower-casing of one character (all strings handled here are ASCII). -/
def lowerChar (c : Char) : Char :=
  if 'A' ≤ c ∧ c ≤ 'Z' then Char.ofNat (c.toNat + 32) else c

/-- ASCII upper-casing of one character. -/
def upperChar (c : Char) : Char :=
  if 'a' ≤ c ∧ c ≤ 'z' then Char.ofNat (c.toNat - 32) else c

/-- Python `s.lower()` restricted to ASCII. -/
def lowerStr (s : String) : String := ⟨s.data.map lowerChar⟩

/-- Python `s.upper()` restricted to ASCII. -/
def upperStr (s : String) : String := ⟨s.data.map upperChar⟩

/-- Decimal digit test. -/
def isDigitChar (c : Char) : Bool := '0' ≤ c && c ≤ '9'

/-- `digitChar d` is the character for digit `d < 10`. -/
def digitChar (d : Nat) : Char := Char.ofNat (48 + d)

/-- Decimal digits of a natural number, most significant first (Python `str(n)`). -/
def natDigits (n : Nat) : List Char :=
  if h : n < 10 then [digitChar n]
  else natDigits (n / 10) ++ [digitChar (n % 10)]
termination_by n
decreasing_by
  exact Nat.div_lt_self (Nat.lt_of_lt_of_le (by norm_num) (Nat.le_of_not_lt h)) (by norm_num)

/-- Python `str(n)` for a natural number. -/
def natRepr (n : Nat) : String := ⟨natDigits n⟩

/-- Value of a list of decimal digit characters (most significant first). -/
def digitsVal (l : List Char) : Nat :=
  l.foldl (fun acc c => acc * 10 + (c.toNat - 48)) 0

/-- Python `int(s)` restricted to non-empty all-digit strings; anything else
raises `ValueError`, modelled by `none`. -/
def parseIntPy (l : List Char) : Option Nat :=
  if l ≠ [] ∧ l.all isDigitChar then some (digitsVal l) else none

/-- First-match association-list lookup (Python `dict` access). -/
def alist {β : Type} : List (String × β) → String → Option β
  | [], _ => none
  | (k, v) :: rest, key => if key = k then some v else alist rest key

/-- Python `dict` update: replace in place if present, else append. -/
def aupdate {β : Type} : List (String × β) → String → β → List (String × β)
  | [], k, v => [(k, v)]
  | (k', v') :: rest, k, v =>
    if k = k' then (k, v) :: rest else (k', v') :: aupdate rest k v

/-! ## Base64 (Python `base64.b64encode` / `b64decode` on the standard alphabet) -/

/-- Character for a 6-bit group `n < 64` in the standard base64 alphabet. -/
def sextetChar (n : Nat) : Char :=
  if n < 26 then Char.ofNat (65 + n)
  else if n < 52 then Char.ofNat (97 + (n - 26))
  else if n < 62 then Char.ofNat (48 + (n - 52))
  else if n = 62 then '+' else '/'

/-- Inverse of `sextetChar`: `none` for characters outside the alphabet. -/
def charSextet (c : Char) : Option Nat :=
  let v := c.toNat
  if 65 ≤ v ∧ v ≤ 90 then some (v - 65)
  else if 97 ≤ v ∧ v ≤ 122 then some (26 + (v - 97))
  else if 48 ≤ v ∧ v ≤ 57 then some (52 + (v - 48))
  else if c = '+' then some 62
  else if c = '/' then some 63
  else none

/-- `base64.b64encode` over a byte list (each `< 256`), producing the padded text. -/
def b64encode : List Nat → List Char
  | [] => []
  | [a] => [sextetChar (a / 4), sextetChar (a % 4 * 16), '=', '=']
  | [a, b] => [sextetChar (a / 4), sextetChar (a % 4 * 16 + b / 16), sextetChar (b % 16 * 4), '=']
  | a :: b :: c :: rest =>
    sextetChar (a / 4) :: sextetChar (a % 4 * 16 + b / 16) ::
      sextetChar (b % 16 * 4 + c / 64) :: sextetChar (c % 64) :: b64encode rest

/-- `base64.b64decode` on alphabet-only input: groups of four characters, with
`=` padding allowed only in the final group.  Malformed input (which makes the
Python library raise `binascii.Error`) yields `none`. -/
def b64decode : List Char → Option (List Nat)
  | [] => some []
  | c1 :: c2 :: c3 :: c4 :: rest =>
    match charSextet c1, charSextet c2 with
    | some s1, some s2 =>
      if c3 = '=' then
        if c4 = '=' ∧ rest = [] then some [s1 * 4 + s2 / 16] else none
      else
        match charSextet c3 with
        | some s3 =>
          if c4 = '=' then
            if rest = [] then some [s1 * 4 + s2 / 16, s2 % 16 * 16 + s3 / 4] else none
          else
            match charSextet c4 with
            | some s4 =>
              (b64decode rest).map
                (fun ds => (s1 * 4 + s2 / 16) :: (s2 % 16 * 16 + s3 / 4) :: (s3 % 4 * 64 + s4) :: ds)
            | none => none
        | none => none
    | _, _ => none
  | _ => none

theorem charSextet_sextetChar_fin : ∀ n : Fin 64, charSextet (sextetChar n.val) = some n.val := by
  decide

theorem charSextet_sextetChar {n : Nat} (h : n < 64) : charSextet (sextetChar n) = some n :=
  charSextet_sextetChar_fin ⟨n, h⟩

theorem sextetChar_ne_pad_fin : ∀ n : Fin 64, sextetChar n.val ≠ '=' := by
  decide

theorem sextetChar_ne_pad {n : Nat} (h : n < 64) : sextetChar n ≠ '=' :=
  sextetChar_ne_pad_fin ⟨n, h⟩

theorem b64_roundtrip : ∀ bs : List Nat, (∀ x ∈ bs, x < 256) →
    b64decode (b64encode bs) = some bs
  | [], _ => rfl
  | [a], h => by
    have ha : a < 256 := h a (by simp)
    have h1 : a / 4 < 64 := by omega
    have h2 : a % 4 * 16 < 64 := by omega
    simp only [b64encode, b64decode, charSextet_sextetChar h1, charSextet_sextetChar h2]
    simp only [if_pos rfl, and_self, if_true]
    have : a / 4 * 4 + a % 4 * 16 / 16 = a := by omega
    rw [this]
  | [a, b], h => by
    have ha : a < 256 := h a (by simp)
    have hb : b < 256 := h b (by simp)
    have h1 : a / 4 < 64 := by omega
    have h2 : a % 4 * 16 + b / 16 < 64 := by omega
    have h3 : b % 16 * 4 < 64 := by omega
    simp only [b64encode, b64decode, charSextet_sextetChar h1, charSextet_sextetChar h2,
      charSextet_sextetChar h3]
    rw [if_neg (sextetChar_ne_pad h3)]
    simp only [if_pos rfl, if_true]
    have e1 : a / 4 * 4 + (a % 4 * 16 + b / 16) / 16 = a := by omega
    have e2 : (a % 4 * 16 + b / 16) % 16 * 16 + b % 16 * 4 / 4 = b := by omega
    rw [e1, e2]
  | a :: b :: c :: d :: rest, h => by
    have ha : a < 256 := h a (by simp)
    have hb : b < 256 := h b (by simp)
    have hc : c < 256 := h c (by simp)
    have h1 : a / 4 < 64 := by omega
    have h2 : a % 4 * 16 + b / 16 < 64 := by omega
    have h3 : b % 16 * 4 + c / 64 < 64 := by omega
    have h4 : c % 64 < 64 := by omega
    have ih := b64_roundtrip (d :: rest) (fun x hx => h x (by simp at hx ⊢; tauto))
    simp only [b64encode, b64decode, charSextet_sextetChar h1, charSextet_sextetChar h2,
      charSextet_sextetChar h3, charSextet_sextetChar h4]
    rw [if_neg (sextetChar_ne_pad h3), if_neg (sextetChar_ne_pad h4), ih]
    have e1 : a / 4 * 4 + (a % 4 * 16 + b / 16) / 16 = a := by omega
    have e2 : (a % 4 * 16 + b / 16) % 16 * 16 + (b % 16 * 4 + c / 64) / 4 = b := by omega
    have e3 : (b % 16 * 4 + c / 64) % 4 * 64 + c % 64 = c := by omega
    simp only [Option.map_some', e1, e2, e3]
  | [a, b, c], h => by
    have ha : a < 256 := h a (by simp)
    have hb : b < 256 := h b (by simp)
    have hc : c < 256 := h c (by simp)
    have h1 : a / 4 < 64 := by omega
    have h2 : a % 4 * 16 + b / 16 < 64 := by omega
    have h3 : b % 16 * 4 + c / 64 < 64 := by omega
    have h4 : c % 64 < 64 := by omega
    simp only [b64encode, b64decode, charSextet_sextetChar h1, charSextet_sextetChar h2,
      charSextet_sextetChar h3, charSextet_sextetChar h4]
    rw [if_neg (sextetChar_ne_pad h3), if_neg (sextetChar_ne_pad h4)]
    have e1 : a / 4 * 4 + (a % 4 * 16 + b / 16) / 16 = a := by omega
    have e2 : (a % 4 * 16 + b / 16) % 16 * 16 + (b % 16 * 4 + c / 64) / 4 = b := by omega
    have e3 : (b % 16 * 4 + c / 64) % 4 * 64 + c % 64 = c := by omega
    simp only [b64decode, Option.map_some', e1, e2, e3]

/-! ## Generic `takeWhile`/`dropWhile` facts used by the string models -/

theorem takeWhile_append_all {α : Type} (p : α → Bool) (xs ys : List α)
    (h : ∀ x ∈ xs, p x = true) : (xs ++ ys).takeWhile p = xs ++ ys.takeWhile p := by
  induction xs with
  | nil => simp
  | cons a l ih =>
    simp only [List.cons_append, List.takeWhile_cons, h a (by simp)]
    rw [ih (fun x hx => h x (by simp [hx]))]
    simp

theorem dropWhile_append_all {α : Type} (p : α → Bool) (xs ys : List α)
    (h : ∀ x ∈ xs, p x = true) : (xs ++ ys).dropWhile p = ys.dropWhile p := by
  induction xs with
  | nil => simp
  | cons a l ih =>
    simp only [List.cons_append, List.dropWhile_cons, h a (by simp)]
    exact ih (fun x hx => h x (by simp [hx]))

theorem takeWhile_all {α : Type} (p : α → Bool) (xs : List α)
    (h : ∀ x ∈ xs, p x = true) : xs.takeWhile p = xs := by
  have := takeWhile_append_all p xs [] h
  simpa using this

theorem dropWhile_all {α : Type} (p : α → Bool) (xs : List α)
    (h : ∀ x ∈ xs, p x = true) : xs.dropWhile p = [] := by
  have := dropWhile_append_all p xs [] h
  simpa using this

theorem takeWhile_append_break {α : Type} (p : α → Bool) (xs ys : List α)
    (h : ∃ x ∈ xs, p x = false) : (xs ++ ys).takeWhile p = xs.takeWhile p := by
  induction xs with
  | nil => simp at h
  | cons a l ih =>
    by_cases hp : p a = true
    · simp only [List.cons_append, List.takeWhile_cons, hp]
      obtain ⟨x, hx, hpx⟩ := h
      rcases List.mem_cons.mp hx with rfl | hx
      · rw [hp] at hpx; cases hpx
      · rw [ih ⟨x, hx, hpx⟩]
    · have hp' : p a = false := by revert hp; cases p a <;> simp
      simp [List.takeWhile_cons, hp']

theorem dropWhile_append_break {α : Type} (p : α → Bool) (xs ys : List α)
    (h : ∃ x ∈ xs, p x = false) : (xs ++ ys).dropWhile p = xs.dropWhile p ++ ys := by
  induction xs with
  | nil => simp at h
  | cons a l ih =>
    by_cases hp : p a = true
    · obtain ⟨x, hx, hpx⟩ := h
      rcases List.mem_cons.mp hx with rfl | hx
      · rw [hp] at hpx; cases hpx
      · simp only [List.cons_append, List.dropWhile_cons, hp]
        simp [ih ⟨x, hx, hpx⟩]
    · have hp' : p a = false := by revert hp; cases p a <;> simp
      simp [List.dropWhile_cons, hp']

theorem dropWhile_len_le {α : Type} (p : α → Bool) (l : List α) :
    (l.dropWhile p).length ≤ l.length := by
  induction l with
  | nil => simp
  | cons a l ih =>
    by_cases h : p a = true
    · simp only [List.dropWhile_cons, h, if_true]
      exact Nat.le_trans ih (Nat.le_succ _)
    · have h' : p a = false := by revert h; cases p a <;> simp
      simp [List.dropWhile_cons, h']

/-! ## Python string primitives: `replace`, `strip`, `split` -/

/-- `isPref p l` : `p` is a prefix of `l`. -/
def isPref : List Char → List Char → Bool
  | [], _ => true
  | _ :: _, [] => false
  | p :: ps, c :: cs => p = c && isPref ps cs

/-- `containsSeq p l` : `p` occurs as a contiguous substring of `l`. -/
def containsSeq (p : List Char) : List Char → Bool
  | [] => isPref p []
  | c :: cs => isPref p (c :: cs) || containsSeq p cs

/-- Python `str.replace(pat, rep)`: replace every (left-to-right, non-overlapping)
occurrence of `pat` by `rep`.  Only called with non-empty `pat` in this code base. -/
def pyReplace (pat rep : List Char) : List Char → List Char
  | [] => []
  | c :: cs =>
    if isPref pat (c :: cs) then rep ++ pyReplace pat rep (cs.drop (pat.length - 1))
    else c :: pyReplace pat rep cs
termination_by l => l.length
decreasing_by
  · simp [List.length_drop]
    omega
  · simp

/-- Tail of a list after removing trailing Python-whitespace. -/
def dropWsEnd : List Char → List Char
  | [] => []
  | c :: cs =>
    match dropWsEnd cs with
    | [] => if isWsChar c then [] else [c]
    | d :: ds => c :: d :: ds

/-- Python `str.strip()` (no arguments): remove leading and trailing whitespace. -/
def pyStrip (l : List Char) : List Char := dropWsEnd (l.dropWhile isWsChar)

/-- Python `str.split()` (no arguments): split on whitespace runs, no empty tokens. -/
def pySplitWs : List Char → List (List Char)
  | c :: cs =>
    if isWsChar c then pySplitWs cs
    else (c :: cs.takeWhile (fun x => !isWsChar x)) :: pySplitWs (cs.dropWhile (fun x => !isWsChar x))
  | [] => []
termination_by l => l.length
decreasing_by
  · simp
  · simpa using Nat.lt_succ_of_le (dropWhile_len_le _ _)

theorem takeWhile_none {α : Type} (p : α → Bool) (l : List α)
    (h : ∀ x ∈ l, p x = false) : l.takeWhile p = [] := by
  cases l with
  | nil => rfl
  | cons a t => simp [List.takeWhile_cons, h a (by simp)]

theorem dropWhile_none {α : Type} (p : α → Bool) (l : List α)
    (h : ∀ x ∈ l, p x = false) : l.dropWhile p = l := by
  cases l with
  | nil => rfl
  | cons a t => simp [List.dropWhile_cons, h a (by simp)]

theorem pySplitWs_all_ws (t : List Char) (h : ∀ c ∈ t, isWsChar c = true) :
    pySplitWs t = [] := by
  induction t with
  | nil => rw [pySplitWs]
  | cons c cs ih =>
    rw [pySplitWs]
    simp only [h c (by simp), if_true]
    exact ih (fun x hx => h x (by simp [hx]))

theorem pySplitWs_append_ws : ∀ a t : List Char, (∀ c ∈ t, isWsChar c = true) →
    pySplitWs (a ++ t) = pySplitWs a
  | [], t, h => by
    rw [List.nil_append, pySplitWs_all_ws t h, pySplitWs]
  | c :: cs, t, h => by
    by_cases hc : isWsChar c = true
    · rw [List.cons_append, pySplitWs, if_pos hc, pySplitWs, if_pos hc]
      exact pySplitWs_append_ws cs t h
    · rw [List.cons_append, pySplitWs, if_neg hc, pySplitWs, if_neg hc]
      by_cases hall : ∀ x ∈ cs, (!isWsChar x) = true
      · rw [takeWhile_append_all _ cs t hall, dropWhile_append_all _ cs t hall]
        rw [takeWhile_none _ t (fun x hx => by simp [h x hx]),
          dropWhile_none _ t (fun x hx => by simp [h x hx])]
        rw [takeWhile_all _ cs hall, dropWhile_all _ cs hall]
        rw [pySplitWs_all_ws t h]
        simp [pySplitWs]
      · push_neg at hall
        obtain ⟨x, hx, hpx⟩ := hall
        have hbrk : ∃ x ∈ cs, (!isWsChar x) = false := ⟨x, hx, by revert hpx; cases isWsChar x <;> simp⟩
        rw [takeWhile_append_break _ cs t hbrk, dropWhile_append_break _ cs t hbrk]
        rw [pySplitWs_append_ws (cs.dropWhile (fun x => !isWsChar x)) t h]
termination_by a => a.length
decreasing_by
  · simp
  · simpa using Nat.lt_succ_of_le (dropWhile_len_le _ _)

theorem pySplitWs_dropWhile_ws (l : List Char) :
    pySplitWs (l.dropWhile isWsChar) = pySplitWs l := by
  induction l with
  | nil => rfl
  | cons c cs ih =>
    by_cases hc : isWsChar c = true
    · rw [List.dropWhile_cons, if_pos hc, ih, pySplitWs, if_pos hc]
    · rw [List.dropWhile_cons, if_neg hc]

theorem dropWsEnd_decomp (l : List Char) :
    ∃ t, l = dropWsEnd l ++ t ∧ ∀ c ∈ t, isWsChar c = true := by
  induction l with
  | nil => exact ⟨[], rfl, by simp⟩
  | cons c cs ih =>
    obtain ⟨t, hdec, hws⟩ := ih
    rw [dropWsEnd]
    cases he : dropWsEnd cs with
    | nil =>
      rw [he] at hdec
      simp only [List.nil_append] at hdec
      by_cases hc : isWsChar c = true
      · refine ⟨c :: cs, ?_, ?_⟩
        · simp [hc]
        · intro x hx
          rcases List.mem_cons.mp hx with rfl | hx
          · exact hc
          · exact hws x (hdec ▸ hx)
      · refine ⟨cs, ?_, fun x hx => hws x (hdec ▸ hx)⟩
        simp [hc]
    | cons d ds =>
      rw [he] at hdec
      exact ⟨t, by simp [hdec], hws⟩

theorem pySplitWs_pyStrip (l : List Char) : pySplitWs (pyStrip l) = pySplitWs l := by
  unfold pyStrip
  obtain ⟨t, hdec, hws⟩ := dropWsEnd_decomp (l.dropWhile isWsChar)
  have h1 : pySplitWs (l.dropWhile isWsChar) =
      pySplitWs (dropWsEnd (l.dropWhile isWsChar)) := by
    conv_lhs => rw [hdec]
    exact pySplitWs_append_ws _ t hws
  rw [← h1, pySplitWs_dropWhile_ws]

/-! ## Splitting on a separator character (Python `str.split(sep)` and friends) -/

/-- Python `s.split(sep, 1)` for a one-character separator: text before the first
occurrence, and (if the separator occurs) the text after it. -/
def splitFirst (ch : Char) (l : List Char) : List Char × Option (List Char) :=
  match l.dropWhile (fun c => c != ch) with
  | [] => (l.takeWhile (fun c => c != ch), none)
  | _ :: rest => (l.takeWhile (fun c => c != ch), some rest)

/-- Python `s.split(sep)` for a one-character separator (keeps empty pieces). -/
def splitOnChar (ch : Char) (l : List Char) : List (List Char) :=
  match h : l.dropWhile (fun c => c != ch) with
  | [] => [l.takeWhile (fun c => c != ch)]
  | _ :: rest => l.takeWhile (fun c => c != ch) :: splitOnChar ch rest
termination_by l.length
decreasing_by
  have hle := dropWhile_len_le (fun c => c != ch) l
  rw [h] at hle
  simp at hle
  omega

/-- Last element of a split (Python `split(...)[-1]`). -/
def lastTok : List (List Char) → List Char
  | [] => []
  | [x] => x
  | _ :: y :: rest => lastTok (y :: rest)

theorem mem_ne_of_not_mem {ch : Char} {a : List Char} (h : ch ∉ a) :
    ∀ x ∈ a, (x != ch) = true := by
  intro x hx
  simp only [bne_iff_ne, ne_eq]
  rintro rfl
  exact h hx

theorem splitFirst_no {ch : Char} {l : List Char} (h : ch ∉ l) :
    splitFirst ch l = (l, none) := by
  unfold splitFirst
  rw [dropWhile_all _ l (mem_ne_of_not_mem h), takeWhile_all _ l (mem_ne_of_not_mem h)]

theorem splitFirst_app {ch : Char} {a : List Char} (h : ch ∉ a) (b : List Char) :
    splitFirst ch (a ++ ch :: b) = (a, some b) := by
  unfold splitFirst
  rw [dropWhile_append_all _ a _ (mem_ne_of_not_mem h),
    takeWhile_append_all _ a _ (mem_ne_of_not_mem h)]
  simp [List.dropWhile_cons, List.takeWhile_cons]

theorem splitOnChar_no {ch : Char} {l : List Char} (h : ch ∉ l) :
    splitOnChar ch l = [l] := by
  rw [splitOnChar]
  have hd : l.dropWhile (fun c => c != ch) = [] := dropWhile_all _ l (mem_ne_of_not_mem h)
  have ht : l.takeWhile (fun c => c != ch) = l := takeWhile_all _ l (mem_ne_of_not_mem h)
  split
  · rw [ht]
  · next x rest heq => rw [hd] at heq; cases heq

theorem splitOnChar_app {ch : Char} {a : List Char} (h : ch ∉ a) (b : List Char) :
    splitOnChar ch (a ++ ch :: b) = a :: splitOnChar ch b := by
  rw [splitOnChar]
  have hd : (a ++ ch :: b).dropWhile (fun c => c != ch) = ch :: b := by
    rw [dropWhile_append_all _ a _ (mem_ne_of_not_mem h)]
    simp [List.dropWhile_cons]
  have ht : (a ++ ch :: b).takeWhile (fun c => c != ch) = a := by
    rw [takeWhile_append_all _ a _ (mem_ne_of_not_mem h)]
    simp [List.takeWhile_cons]
  split
  · next heq => rw [hd] at heq; cases heq
  · next x rest heq =>
      rw [hd] at heq
      injection heq with h1 h2
      rw [ht, h2]

theorem splitOnChar_ne_nil (ch : Char) (l : List Char) : splitOnChar ch l ≠ [] := by
  rw [splitOnChar]
  cases h : l.dropWhile (fun c => c != ch) <;> simp

theorem lastTok_cons (a : List Char) {l : List (List Char)} (h : l ≠ []) :
    lastTok (a :: l) = lastTok l := by
  cases l with
  | nil => cases h rfl
  | cons y rest => rfl

/-! ## Decimal digits of naturals -/

theorem digitChar_isDigit_fin : ∀ d : Fin 10, isDigitChar (digitChar d.val) = true := by
  decide

theorem digitChar_toNat_fin : ∀ d : Fin 10, (digitChar d.val).toNat = 48 + d.val := by
  decide

theorem digitChar_isDigit {d : Nat} (h : d < 10) : isDigitChar (digitChar d) = true :=
  digitChar_isDigit_fin ⟨d, h⟩

theorem digitChar_toNat {d : Nat} (h : d < 10) : (digitChar d).toNat = 48 + d :=
  digitChar_toNat_fin ⟨d, h⟩

theorem natDigits_ne_nil (n : Nat) : natDigits n ≠ [] := by
  rw [natDigits]
  split <;> simp

theorem natDigits_all_digits (n : Nat) : ∀ c ∈ natDigits n, isDigitChar c = true := by
  induction n using Nat.strong_induction_on with
  | _ n ih =>
    rw [natDigits]
    split
    · next h =>
      intro c hc
      simp only [List.mem_singleton] at hc
      subst hc
      exact digitChar_isDigit h
    · next h =>
      intro c hc
      rcases List.mem_append.mp hc with hc | hc
      · exact ih (n / 10) (Nat.div_lt_self (by omega) (by norm_num)) c hc
      · simp only [List.mem_singleton] at hc
        subst hc
        exact digitChar_isDigit (Nat.mod_lt _ (by norm_num))

theorem digitsVal_append_one (l : List Char) (c : Char) :
    digitsVal (l ++ [c]) = digitsVal l * 10 + (c.toNat - 48) := by
  simp [digitsVal, List.foldl_append]

theorem digitsVal_natDigits (n : Nat) : digitsVal (natDigits n) = n := by
  induction n using Nat.strong_induction_on with
  | _ n ih =>
    rw [natDigits]
    split
    · next h =>
      simp [digitsVal, digitChar_toNat h]
    · next h =>
      rw [digitsVal_append_one, ih (n / 10) (Nat.div_lt_self (by omega) (by norm_num))]
      rw [digitChar_toNat (Nat.mod_lt _ (by norm_num))]
      omega

theorem parseIntPy_natDigits (n : Nat) : parseIntPy (natDigits n) = some n := by
  unfold parseIntPy
  rw [if_pos]
  · rw [digitsVal_natDigits]
  · exact ⟨natDigits_ne_nil n, List.all_eq_true.mpr (natDigits_all_digits n)⟩

theorem digit_toNat_bounds {c : Char} (h : isDigitChar c = true) :
    48 ≤ c.toNat ∧ c.toNat ≤ 57 := by
  simp only [isDigitChar, Bool.and_eq_true, decide_eq_true_eq] at h
  obtain ⟨h1, h2⟩ := h
  exact ⟨h1, h2⟩

theorem digit_ne {c : Char} (h : isDigitChar c = true) {ch : Char}
    (hch : ch.toNat < 48 ∨ 57 < ch.toNat) : c ≠ ch := by
  obtain ⟨h1, h2⟩ := digit_toNat_bounds h
  intro he
  subst he
  omega

/-! ## Occurrence facts for `pyReplace` -/

theorem isPref_self_append (p rest : List Char) : isPref p (p ++ rest) = true := by
  induction p with
  | nil => rfl
  | cons a l ih => simp [isPref, ih]

theorem isPref_exists {p l : List Char} (h : isPref p l = true) : ∃ rest, l = p ++ rest := by
  induction p generalizing l with
  | nil => exact ⟨l, rfl⟩
  | cons a q ih =>
    cases l with
    | nil => simp [isPref] at h
    | cons c cs =>
      simp only [isPref, Bool.and_eq_true, decide_eq_true_eq] at h
      obtain ⟨rfl, h2⟩ := h
      obtain ⟨rest, rfl⟩ := ih h2
      exact ⟨rest, rfl⟩

theorem containsSeq_iff (p l : List Char) :
    containsSeq p l = true ↔ ∃ pre post, l = pre ++ p ++ post := by
  induction l with
  | nil =>
    simp only [containsSeq]
    constructor
    · intro h
      obtain ⟨rest, hr⟩ := isPref_exists h
      exact ⟨[], rest, by simp [← hr]⟩
    · rintro ⟨pre, post, hl⟩
      have hlen := congrArg List.length hl
      simp only [List.length_nil, List.length_append] at hlen
      have : p = [] := List.length_eq_zero.mp (by omega)
      subst this
      rfl
  | cons c cs ih =>
    simp only [containsSeq, Bool.or_eq_true]
    constructor
    · rintro (h | h)
      · obtain ⟨rest, hr⟩ := isPref_exists h
        exact ⟨[], rest, by simp [hr]⟩
      · obtain ⟨pre, post, hl⟩ := ih.mp h
        exact ⟨c :: pre, post, by simp [hl]⟩
    · rintro ⟨pre, post, hl⟩
      cases pre with
      | nil =>
        left
        simp only [List.nil_append] at hl
        rw [hl]
        exact isPref_self_append p post
      | cons d pre' =>
        right
        refine ih.mpr ⟨pre', post, ?_⟩
        simpa using congrArg List.tail hl

/-- `colonSlash l` : `l` contains `':'` immediately followed by `'/'`. -/
def colonSlash : List Char → Bool
  | [] => false
  | [_] => false
  | c :: d :: rest => (c = ':' && d = '/') || colonSlash (d :: rest)

theorem colonSlash_cons_false {c : Char} {cs : List Char}
    (h : colonSlash (c :: cs) = false) : colonSlash cs = false := by
  cases cs with
  | nil => rfl
  | cons d rest =>
    simp only [colonSlash, Bool.or_eq_false_iff] at h
    exact h.2

theorem colonSlash_of_isPref :
    ∀ pre : List Char, ∀ post l, isPref (pre ++ ':' :: '/' :: post) l = true →
      colonSlash l = true := by
  intro pre
  induction pre with
  | nil =>
    intro post l h
    cases l with
    | nil => simp [isPref] at h
    | cons c cs =>
      cases cs with
      | nil =>
        simp only [List.nil_append, isPref, Bool.and_eq_true] at h
        exact absurd h.2 (by simp [isPref])
      | cons d rest =>
        simp only [List.nil_append, isPref, Bool.and_eq_true, decide_eq_true_eq] at h
        obtain ⟨hc, hd, _⟩ := h
        simp only [colonSlash, Bool.or_eq_true]
        left
        simp [← hc, ← hd]
  | cons a q ih =>
    intro post l h
    cases l with
    | nil => simp [isPref] at h
    | cons c cs =>
      simp only [List.cons_append, isPref, Bool.and_eq_true] at h
      have h2 := h.2
      have hcs := ih post cs h2
      cases cs with
      | nil => simp [colonSlash] at hcs
      | cons d rest =>
        simp only [colonSlash, Bool.or_eq_true]
        right
        exact hcs

theorem containsSeq_colonSlash_false (pre post l : List Char)
    (h : colonSlash l = false) : containsSeq (pre ++ ':' :: '/' :: post) l = false := by
  induction l with
  | nil =>
    simp only [containsSeq]
    cases pre <;> simp [isPref]
  | cons c cs ih =>
    simp only [containsSeq, Bool.or_eq_false_iff]
    constructor
    · by_cases hp : isPref (pre ++ ':' :: '/' :: post) (c :: cs) = true
      · rw [colonSlash_of_isPref pre post _ hp] at h
        cases h
      · revert hp
        cases isPref (pre ++ ':' :: '/' :: post) (c :: cs) <;> simp
    · exact ih (colonSlash_cons_false h)

theorem colonSlash_none {l : List Char} (h : ∀ c ∈ l, c ≠ ':') :
    colonSlash l = false := by
  induction l with
  | nil => rfl
  | cons c cs ih =>
    cases cs with
    | nil => rfl
    | cons d rest =>
      simp only [colonSlash, Bool.or_eq_false_iff]
      refine ⟨?_, ih (fun x hx => h x (by simp [hx]))⟩
      have := h c (by simp)
      simp [this]

theorem colonSlash_append_false {a b : List Char} (ha : colonSlash a = false)
    (hb : colonSlash b = false)
    (hbd : a.getLast? = some ':' → b.head? ≠ some '/') :
    colonSlash (a ++ b) = false := by
  induction a with
  | nil => simpa using hb
  | cons x xs ih =>
    cases xs with
    | nil =>
      simp only [List.cons_append, List.nil_append]
      cases b with
      | nil => simpa using ha
      | cons d rest =>
        simp only [colonSlash, Bool.or_eq_false_iff]
        constructor
        · by_cases hx : x = ':'
          · subst hx
            have := hbd (by simp)
            simp only [List.head?] at this
            have hd : d ≠ '/' := by intro hh; exact this (by rw [hh])
            simp [hd]
          · simp [hx]
        · exact hb
    | cons y ys =>
      have ha2 : colonSlash (y :: ys) = false := colonSlash_cons_false ha
      have hfst : (x = ':' && y = '/') = false := by
        simp only [colonSlash, Bool.or_eq_false_iff] at ha
        exact ha.1
      simp only [List.cons_append, colonSlash, Bool.or_eq_false_iff]
      constructor
      · exact hfst
      · have := ih ha2 (by
          intro hl
          exact hbd (by rwa [List.getLast?_cons_cons]))
        simpa using this
    
theorem pyReplace_nil (pat rep : List Char) : pyReplace pat rep [] = [] := by
  rw [pyReplace.eq_def]

theorem pyReplace_cons (pat rep : List Char) (c : Char) (cs : List Char) :
    pyReplace pat rep (c :: cs) =
      if isPref pat (c :: cs) then rep ++ pyReplace pat rep (cs.drop (pat.length - 1))
      else c :: pyReplace pat rep cs := by
  rw [pyReplace.eq_def]

theorem pyReplace_no_occur (pat rep : List Char) :
    ∀ l, containsSeq pat l = false → pyReplace pat rep l = l := by
  intro l
  induction l with
  | nil => intro _; rw [pyReplace_nil]
  | cons c cs ih =>
    intro h
    simp only [containsSeq, Bool.or_eq_false_iff] at h
    rw [pyReplace_cons, if_neg (by simp [h.1]), ih h.2]

theorem pyReplace_strip_head (q : Char) (qs rest : List Char)
    (h : containsSeq (q :: qs) rest = false) :
    pyReplace (q :: qs) [] ((q :: qs) ++ rest) = rest := by
  rw [List.cons_append, pyReplace_cons]
  rw [if_pos (by rw [← List.cons_append]; exact isPref_self_append _ _)]
  simp only [List.length_cons, Nat.add_sub_cancel, List.nil_append]
  rw [List.drop_left]
  exact pyReplace_no_occur _ _ rest h

/-! ## More `pyStrip`/`pySplitWs` bridging facts -/

theorem dropWsEnd_id (l : List Char) (h : ∀ c ∈ l, isWsChar c = false) :
    dropWsEnd l = l := by
  induction l with
  | nil => rfl
  | cons c cs ih =>
    have ihcs : dropWsEnd cs = cs := ih (fun x hx => h x (by simp [hx]))
    rw [dropWsEnd, ihcs]
    cases cs with
    | nil => simp [h c (by simp)]
    | cons d ds => rfl

theorem pyStrip_id (l : List Char) (h : ∀ c ∈ l, isWsChar c = false) :
    pyStrip l = l := by
  unfold pyStrip
  rw [dropWhile_none _ l h, dropWsEnd_id l h]

theorem pySplitWs_ws_append (pre y : List Char) (h : ∀ c ∈ pre, isWsChar c = true) :
    pySplitWs (pre ++ y) = pySplitWs y := by
  induction pre with
  | nil => simp
  | cons c ps ih =>
    rw [List.cons_append, pySplitWs, if_pos (h c (by simp))]
    exact ih (fun x hx => h x (by simp [hx]))

theorem pyStrip_decomp (l : List Char) :
    ∃ pre post, l = pre ++ pyStrip l ++ post ∧
      (∀ c ∈ pre, isWsChar c = true) ∧ (∀ c ∈ post, isWsChar c = true) := by
  obtain ⟨post, hdec, hws⟩ := dropWsEnd_decomp (l.dropWhile isWsChar)
  refine ⟨l.takeWhile isWsChar, post, ?_, ?_, hws⟩
  · conv_lhs => rw [← List.takeWhile_append_dropWhile (p := isWsChar) (l := l)]
    rw [List.append_assoc, show List.dropWhile isWsChar l = pyStrip l ++ post from hdec]
  · intro c hc
    exact List.mem_takeWhile_imp hc

theorem pySplitWs_no_nil : ∀ l : List Char, ∀ t ∈ pySplitWs l, t ≠ []
  | [] => by rw [pySplitWs]; simp
  | c :: cs => by
    rw [pySplitWs]
    by_cases hc : isWsChar c = true
    · rw [if_pos hc]
      exact pySplitWs_no_nil cs
    · rw [if_neg hc]
      intro t ht
      rcases List.mem_cons.mp ht with rfl | ht
      · simp
      · exact pySplitWs_no_nil (cs.dropWhile (fun x => !isWsChar x)) t ht
termination_by l => l.length
decreasing_by
  · simp
  · simpa using Nat.lt_succ_of_le (dropWhile_len_le _ _)

theorem pyReplace_single (ch c' : Char) (l : List Char) :
    pyReplace [ch] [c'] l = l.map (fun x => if x = ch then c' else x) := by
  induction l with
  | nil => rw [pyReplace_nil]; rfl
  | cons c cs ih =>
    rw [pyReplace_cons]
    by_cases hc : c = ch
    · subst hc
      rw [if_pos (by simp [isPref])]
      simp only [List.length_cons, List.length_nil, Nat.sub_self, List.drop_zero]
      rw [ih]
      simp
    · rw [if_neg (by simp [isPref]; intro he; exact absurd he.symm hc)]
      rw [ih]
      simp [hc]

theorem hyphen_map_ws_id (pre : List Char) (h : ∀ c ∈ pre, isWsChar c = true) :
    pre.map (fun x => if x = '-' then ' ' else x) = pre := by
  induction pre with
  | nil => rfl
  | cons c cs ih =>
    have hws := h c (by simp)
    have hc : c ≠ '-' := by
      rintro rfl
      simp [isWsChar] at hws
    simp only [List.map_cons, if_neg hc]
    rw [ih (fun x hx => h x (by simp [hx]))]

theorem tokens_strip_eq (X : List Char) :
    pySplitWs ((pyStrip X).map (fun x => if x = '-' then ' ' else x)) =
      pySplitWs (X.map (fun x => if x = '-' then ' ' else x)) := by
  obtain ⟨pre, post, hdec, hpre, hpost⟩ := pyStrip_decomp X
  conv_rhs => rw [hdec, List.append_assoc]
  rw [List.map_append, List.map_append]
  rw [hyphen_map_ws_id pre hpre, hyphen_map_ws_id post hpost]
  rw [pySplitWs_ws_append pre _ hpre, pySplitWs_append_ws _ post hpost]

/-! ## `STOPWORDS` and `ConfigToSingbox.clean_isp_name` -/

/-- The stopword set from `generate_singbox_config.py`. -/
def STOPWORDS : List String :=
  ["SAS", "INC", "LTD", "LLC", "CORP", "CO", "SA", "SRO", "ASN", "LIMITED", "COMPANY",
   "ASIA", "CLOUD", "INTERNATIONAL", "PROVIDER", "ISLAND", "PRIVATE", "ONLINE",
   "OF", "AS", "BV", "HK", "MSN", "BMC", "PTE"]

/-- `ConfigToSingbox.clean_isp_name`: strip `.` and `,`, strip outer whitespace,
turn `-` into spaces, split on whitespace, drop stopwords (case-insensitively),
keep the first two tokens. -/
def cleanIspName (isp : String) : String :=
  let ispRaw : String := if isp = "" then "Unknown" else isp
  let stripped := pyStrip (pyReplace [','] [] (pyReplace ['.'] [] ispRaw.data))
  let parts := (pySplitWs (pyReplace ['-'] [' '] stripped)).filter
      (fun w => w ≠ [] && !STOPWORDS.contains (upperStr ⟨w⟩))
  match parts with
  | p0 :: p1 :: _ => (⟨p0⟩ : String) ++ " " ++ (⟨p1⟩ : String)
  | [p0] => (⟨p0⟩ : String)
  | [] => "Unknown"

/-- Join tokens with single spaces. -/
def joinSpace : List (List Char) → String
  | [] => ""
  | [t] => (⟨t⟩ : String)
  | t :: rest => (⟨t⟩ : String) ++ " " ++ joinSpace rest

/-- Modelled from the spec's words (§4.3): "strip periods and commas, split on
whitespace and hyphens, drop tokens (case-insensitively) that match a fixed
stopword set, keep the first two remaining tokens joined by a space; if none
remain, label is `Unknown`".  Used only to compare against `cleanIspName`. -/
def cleanIspSpec (isp : String) : String :=
  let tokens := (pySplitWs (pyReplace ['-'] [' ']
      (pyReplace [','] [] (pyReplace ['.'] [] isp.data)))).filter
      (fun w => !STOPWORDS.contains (upperStr ⟨w⟩))
  if tokens = [] then "Unknown" else joinSpace (tokens.take 2)

theorem cleanIsp_tokens_strip (X : List Char) :
    (pySplitWs (pyReplace ['-'] [' '] (pyStrip X))).filter
        (fun w => w ≠ [] && !STOPWORDS.contains (upperStr ⟨w⟩)) =
      (pySplitWs (pyReplace ['-'] [' '] X)).filter
        (fun w => !STOPWORDS.contains (upperStr ⟨w⟩)) := by
  rw [pyReplace_single, pyReplace_single, tokens_strip_eq]
  apply List.filter_congr
  intro w hw
  have hne : w ≠ [] := pySplitWs_no_nil _ w hw
  simp [hne]

theorem cleanIspName_eq_spec_of_ne (s : String) (hs : s ≠ "") :
    cleanIspName s = cleanIspSpec s := by
  unfold cleanIspName cleanIspSpec
  rw [if_neg hs]
  dsimp only
  rw [cleanIsp_tokens_strip]
  cases hts : (pySplitWs (pyReplace ['-'] [' ']
      (pyReplace [','] [] (pyReplace ['.'] [] s.data)))).filter
      (fun w => !STOPWORDS.contains (upperStr ⟨w⟩)) with
  | nil => simp
  | cons t0 rest =>
    cases rest with
    | nil => simp [joinSpace]
    | cons t1 rest2 => simp [joinSpace]

theorem cleanIspName_empty : cleanIspName "" = cleanIspSpec "" := by
  simp [cleanIspName, cleanIspSpec, pyReplace_cons, pyReplace_nil, isPref, pyStrip, dropWsEnd,
    pySplitWs, upperStr, upperChar, STOPWORDS, isWsChar, joinSpace]

theorem cleanIspName_eq_spec (s : String) : cleanIspName s = cleanIspSpec s := by
  by_cases hs : s = ""
  · subst hs
    exact cleanIspName_empty
  · exact cleanIspName_eq_spec_of_ne s hs

/-! ## `ConfigToSingbox.build_tags_for_addresses` -/

theorem natRepr_small {n : Nat} (h : n < 10) : natRepr n = (⟨[digitChar n]⟩ : String) := by
  rw [natRepr, natDigits, dif_pos h]

/-- One loop step per unique address: resolve, bump the per-country counter,
record `"{CC} {index} - {isp}"`.  The second component is the trace of
addresses passed to the resolver, in order. -/
def buildTagsGo (resolver : String → String × String) :
    List String → List (String × Nat) → List (String × String) × List String
  | [], _ => ([], [])
  | addr :: rest, counters =>
    let r := resolver addr
    let cc := if r.1 = "" then "UNK" else upperStr r.1
    let cnt := (alist counters cc).getD 0 + 1
    let tag := cc ++ " " ++ natRepr cnt ++ " - " ++ cleanIspName r.2
    let p := buildTagsGo resolver rest (aupdate counters cc cnt)
    ((addr, tag) :: p.1, addr :: p.2)

/-- Order-preserving deduplication (the `seen` set / `unique_addresses` loop). -/
def dedupGo : List String → List String → List String
  | _, [] => []
  | seen, a :: rest => if a ∈ seen then dedupGo seen rest else a :: dedupGo (a :: seen) rest

def dedupPreserve (l : List String) : List String := dedupGo [] l

/-- `ConfigToSingbox.build_tags_for_addresses` (the resolver stands for
`GeoIPResolver.get_country_and_isp`): address → tag map. -/
def buildTags (resolver : String → String × String) (addresses : List String) :
    List (String × String) :=
  (buildTagsGo resolver (dedupPreserve addresses) []).1

/-- The list of addresses the resolver is called on during `buildTags`. -/
def buildTagsTrace (resolver : String → String × String) (addresses : List String) :
    List String :=
  (buildTagsGo resolver (dedupPreserve addresses) []).2

theorem dedupGo_mem_and_nodup :
    ∀ l seen, (dedupGo seen l).Nodup ∧ ∀ x ∈ dedupGo seen l, x ∉ seen := by
  intro l
  induction l with
  | nil => intro seen; simp [dedupGo]
  | cons a rest ih =>
    intro seen
    rw [dedupGo]
    by_cases ha : a ∈ seen
    · rw [if_pos ha]
      exact ih seen
    · rw [if_neg ha]
      obtain ⟨hnd, hmem⟩ := ih (a :: seen)
      refine ⟨List.nodup_cons.mpr ⟨?_, hnd⟩, ?_⟩
      · intro hx
        exact hmem a hx (by simp)
      · intro x hx
        rcases List.mem_cons.mp hx with rfl | hx
        · exact ha
        · intro hxs
          exact hmem x hx (by simp [hxs])

theorem dedupGo_id : ∀ l seen, l.Nodup → (∀ x ∈ l, x ∉ seen) → dedupGo seen l = l := by
  intro l
  induction l with
  | nil => intro seen _ _; rfl
  | cons a rest ih =>
    intro seen hnd hdisj
    rw [dedupGo, if_neg (hdisj a (by simp))]
    rw [ih (a :: seen) (List.nodup_cons.mp hnd).2]
    intro x hx
    simp only [List.mem_cons]
    rintro (rfl | hxs)
    · exact (List.nodup_cons.mp hnd).1 hx
    · exact hdisj x (by simp [hx]) hxs

theorem dedupPreserve_idem (l : List String) :
    dedupPreserve (dedupPreserve l) = dedupPreserve l := by
  obtain ⟨hnd, _⟩ := dedupGo_mem_and_nodup l []
  exact dedupGo_id _ [] hnd (by simp)

theorem buildTags_dedup (resolver : String → String × String) (addresses : List String) :
    buildTags resolver (dedupPreserve addresses) = buildTags resolver addresses := by
  unfold buildTags
  rw [dedupPreserve_idem]

theorem upperStr_us : upperStr "us" = "US" := by decide

theorem natRepr_one : natRepr 1 = "1" := by rw [natRepr_small (by norm_num)]; rfl

theorem natRepr_two : natRepr 2 = "2" := by rw [natRepr_small (by norm_num)]; rfl

theorem natRepr_three : natRepr 3 = "3" := by rw [natRepr_small (by norm_num)]; rfl

theorem buildTags_ABAC (A B C : String) (res : String → String × String)
    (hAB : A ≠ B) (hAC : A ≠ C) (hBC : B ≠ C)
    (hA : (res A).1 = "us") (hB : (res B).1 = "us") (hC : (res C).1 = "us") :
    alist (buildTags res [A, B, A, C]) A = some ("US 1 - " ++ cleanIspName (res A).2) ∧
    alist (buildTags res [A, B, A, C]) B = some ("US 2 - " ++ cleanIspName (res B).2) ∧
    alist (buildTags res [A, B, A, C]) C = some ("US 3 - " ++ cleanIspName (res C).2) ∧
    buildTagsTrace res [A, B, A, C] = [A, B, C] ∧
    (buildTagsTrace res [A, B, A, C]).Nodup := by
  have hded : dedupPreserve [A, B, A, C] = [A, B, C] := by
    unfold dedupPreserve
    rw [dedupGo, if_neg (by simp)]
    rw [dedupGo, if_neg (by simp [Ne.symm hAB])]
    rw [dedupGo, if_pos (by simp)]
    rw [dedupGo, if_neg (by simp [Ne.symm hAC, Ne.symm hBC])]
    rw [dedupGo]
  have hgo : buildTagsGo res [A, B, C] [] =
      ([(A, "US 1 - " ++ cleanIspName (res A).2),
        (B, "US 2 - " ++ cleanIspName (res B).2),
        (C, "US 3 - " ++ cleanIspName (res C).2)], [A, B, C]) := by
    simp only [buildTagsGo, hA, hB, hC, upperStr_us, alist, aupdate]
    norm_num
    simp [alist, natRepr_one, natRepr_two, natRepr_three]
  unfold buildTags buildTagsTrace
  rw [hded, hgo]
  refine ⟨?_, ?_, ?_, rfl, by simp [hAB, hAC, hBC]⟩ <;>
    simp [alist, Ne.symm hAB, Ne.symm hAC, Ne.symm hBC]

theorem dedupGo_append_mem (a : String) :
    ∀ l seen, (a ∈ seen ∨ a ∈ l) → dedupGo seen (l ++ [a]) = dedupGo seen l := by
  intro l
  induction l with
  | nil =>
    intro seen h
    have ha : a ∈ seen := by simpa using h
    simp [dedupGo, ha]
  | cons b rest ih =>
    intro seen h
    rw [List.cons_append, dedupGo, dedupGo]
    by_cases hb : b ∈ seen
    · rw [if_pos hb, if_pos hb]
      apply ih
      rcases h with h | h
      · exact Or.inl h
      · rcases List.mem_cons.mp h with rfl | h
        · exact Or.inl hb
        · exact Or.inr h
    · rw [if_neg hb, if_neg hb]
      congr 1
      apply ih
      rcases h with h | h
      · exact Or.inl (by simp [h])
      · rcases List.mem_cons.mp h with rfl | h
        · exact Or.inl (by simp)
        · exact Or.inr h

theorem buildTags_append_dup (res : String → String × String) (addrs : List String)
    (a : String) (ha : a ∈ addrs) :
    buildTags res (addrs ++ [a]) = buildTags res addrs := by
  unfold buildTags dedupPreserve
  rw [dedupGo_append_mem a addrs [] (Or.inr ha)]

/-! ## `main.py`: global counters, geo lookup and the hysteria2 handler -/

/-- The `tls` sub-object of a hysteria2 JSON payload (`content['tls']`). -/
structure Hy2Tls where
  insecure : Bool
  sni : String
deriving DecidableEq, Repr

/-- A well-formed hysteria2 JSON payload as read by `process_hysteria2`
(`content['server']`, `content['auth']`, `content['tls']`).  A payload missing
one of these keys raises `KeyError`, which the handler's `except` turns into a
no-op; only well-formed payloads are modelled. -/
structure Hy2Content where
  server : String
  auth : String
  tls : Hy2Tls
deriving DecidableEq, Repr

/-- A Clash-style proxy dict as built by `process_hysteria2`. -/
structure ClashProxy where
  name : String
  type : String
  server : String
  port : Nat
  password : String
  sni : String
  skipCertVerify : Bool
deriving DecidableEq, Repr

/-- The module-level mutable state of `main.py`: `country_counters`,
`servers_list`, `extracted_proxies`. -/
structure MainState where
  countryCounters : List (String × Nat)
  serversList : List String
  extracted : List ClashProxy
deriving DecidableEq, Repr

/-- External collaborators of `main.py`: the GeoIP city database
(`reader.city(ip).country.iso_code`; `none` models a failed lookup), DNS
(`socket.gethostbyname`; `none` models `gaierror`), and `ipaddress.ip_address`
classification (`some true` = IPv4 literal, `some false` = IPv6 literal,
`none` = not an IP literal, i.e. `ValueError`). -/
structure MainEnv where
  geoDb : String → Option String
  dns : String → Option String
  ipClass : String → Option Bool

/-- `is_ipv4_or_domain` with `DEBUG_MODE = False`. -/
def is_ipv4_or_domain (env : MainEnv) (address : String) : Bool :=
  match env.ipClass address with
  | some b => b
  | none => true

/-- `get_physical_location`: cut at the first `:`, resolve, look up the country
code, `"Unknown"` on failure. -/
def get_physical_location (env : MainEnv) (address : String) : String :=
  let addr : String := ⟨address.data.takeWhile (fun c => c != ':')⟩
  let ip := (env.dns addr).getD addr
  match env.geoDb ip with
  | some c => c
  | none => "Unknown"

/-- Python `f"{count:02d}"`. -/
def pad2 (n : Nat) : String := if n < 10 then "0" ++ natRepr n else natRepr n

/-- `format_proxy_name`: bump the per-country counter and produce
`f"{country}-{count:02d}"`.  Returns the name and the updated
`country_counters`. -/
def format_proxy_name (country : String) (counters : List (String × Nat)) :
    String × List (String × Nat) :=
  let count := (alist counters country).getD 0 + 1
  (country ++ "-" ++ pad2 count, aupdate counters country count)

/-- `process_hysteria2` of `main.py` on an already-JSON-parsed payload.  Any
raised error (missing `:` in `server`, non-integer port) is caught by the
surrounding `except` and leaves the state unchanged.  Note that
`format_proxy_name` — and with it the per-country counter bump — runs *before*
the `servers_list` duplicate check. -/
def process_hysteria2 (env : MainEnv) (content : Hy2Content) (st : MainState) : MainState :=
  match splitOnChar ':' content.server.data with
  | [] => st
  | [_] => st
  | serverChars :: ports :: _ =>
    let server : String := ⟨serverChars⟩
    if ¬ is_ipv4_or_domain env server then st
    else
      match parseIntPy ((splitOnChar ',' ports).headD []) with
      | none => st
      | some server_port =>
        let location := get_physical_location env server
        let p := format_proxy_name location st.countryCounters
        let proxy : ClashProxy :=
          { name := p.1, type := "hysteria2", server := server, port := server_port,
            password := content.auth, sni := content.tls.sni,
            skipCertVerify := content.tls.insecure }
        let key := server ++ ":" ++ natRepr server_port ++ "-hysteria2"
        if key ∈ st.serversList then
          { st with countryCounters := p.2 }
        else
          { countryCounters := p.2,
            serversList := st.serversList ++ [key],
            extracted := st.extracted ++ [proxy] }

theorem alist_aupdate_self {β : Type} (m : List (String × β)) (k : String) (v : β) :
    alist (aupdate m k v) k = some v := by
  induction m with
  | nil => simp [aupdate, alist]
  | cons p rest ih =>
    obtain ⟨k', v'⟩ := p
    rw [aupdate]
    by_cases hk : k = k'
    · rw [if_pos hk, alist, if_pos rfl]
    · rw [if_neg hk, alist, if_neg hk]
      exact ih

theorem colon_not_in_natDigits (n : Nat) : ':' ∉ natDigits n := by
  intro hc
  have h2 := natDigits_all_digits n ':' hc
  exact absurd h2 (by decide)

theorem comma_not_in_natDigits (n : Nat) : ',' ∉ natDigits n := by
  intro hc
  have h2 := natDigits_all_digits n ',' hc
  exact absurd h2 (by decide)

theorem process_hysteria2_dup (env : MainEnv) (a : String) (t : Hy2Tls)
    (server : String) (n : Nat) (st : MainState)
    (hserver : ∀ c ∈ server.data, c ≠ ':')
    (hip : is_ipv4_or_domain env server = true)
    (hkey : server ++ ":" ++ natRepr n ++ "-hysteria2" ∈ st.serversList) :
    (process_hysteria2 env ⟨server ++ ":" ++ natRepr n, a, t⟩ st).extracted = st.extracted ∧
    (process_hysteria2 env ⟨server ++ ":" ++ natRepr n, a, t⟩ st).serversList = st.serversList ∧
    alist (process_hysteria2 env ⟨server ++ ":" ++ natRepr n, a, t⟩ st).countryCounters
        (get_physical_location env server) =
      some ((alist st.countryCounters (get_physical_location env server)).getD 0 + 1) := by
  obtain ⟨sd⟩ := server
  have hdata : ((⟨sd⟩ : String) ++ ":" ++ natRepr n).data = sd ++ ':' :: natDigits n := by
    simp [natRepr, String.data_append]
  have hsplit : splitOnChar ':' (sd ++ ':' :: natDigits n) = [sd, natDigits n] := by
    rw [splitOnChar_app (fun hc => hserver ':' hc rfl) (natDigits n),
      splitOnChar_no (colon_not_in_natDigits n)]
  have hsplit2 : splitOnChar ',' (natDigits n) = [natDigits n] :=
    splitOnChar_no (comma_not_in_natDigits n)
  unfold process_hysteria2
  dsimp only
  rw [hdata, hsplit]
  dsimp only
  rw [if_neg (by rw [hip]; simp)]
  rw [hsplit2]
  dsimp only [List.headD]
  rw [parseIntPy_natDigits n]
  dsimp only
  rw [if_pos hkey]
  refine ⟨rfl, rfl, ?_⟩
  exact alist_aupdate_self _ _ _

theorem format_proxy_name_spec (country : String) (counters : List (String × Nat)) :
    format_proxy_name country counters =
      (country ++ "-" ++ pad2 ((alist counters country).getD 0 + 1),
       aupdate counters country ((alist counters country).getD 0 + 1)) := rfl

theorem process_hysteria2_new (env : MainEnv) (a : String) (t : Hy2Tls)
    (server : String) (n : Nat) (st : MainState)
    (hserver : ∀ c ∈ server.data, c ≠ ':')
    (hip : is_ipv4_or_domain env server = true)
    (hkey : server ++ ":" ++ natRepr n ++ "-hysteria2" ∉ st.serversList) :
    process_hysteria2 env ⟨server ++ ":" ++ natRepr n, a, t⟩ st =
      { countryCounters := (format_proxy_name (get_physical_location env server) st.countryCounters).2,
        serversList := st.serversList ++ [server ++ ":" ++ natRepr n ++ "-hysteria2"],
        extracted := st.extracted ++ [⟨(format_proxy_name (get_physical_location env server) st.countryCounters).1, "hysteria2", server, n, a, t.sni, t.insecure⟩] } := by
  obtain ⟨sd⟩ := server
  have hdata : ((⟨sd⟩ : String) ++ ":" ++ natRepr n).data = sd ++ ':' :: natDigits n := by
    simp [natRepr, String.data_append]
  have hsplit : splitOnChar ':' (sd ++ ':' :: natDigits n) = [sd, natDigits n] := by
    rw [splitOnChar_app (fun hc => hserver ':' hc rfl) (natDigits n),
      splitOnChar_no (colon_not_in_natDigits n)]
  have hsplit2 : splitOnChar ',' (natDigits n) = [natDigits n] :=
    splitOnChar_no (comma_not_in_natDigits n)
  unfold process_hysteria2
  dsimp only
  rw [hdata, hsplit]
  dsimp only
  rw [if_neg (by rw [hip]; simp)]
  rw [hsplit2]
  dsimp only [List.headD]
  rw [parseIntPy_natDigits n]
  dsimp only
  rw [if_neg hkey]

/-- A fixed environment where every address resolves to country `US`. -/
def envUS : MainEnv := ⟨fun _ => some "US", fun _ => none, fun _ => none⟩

/-- A concrete hysteria2 payload used to exercise the duplicate path. -/
def hy2Sample : Hy2Content := ⟨"1.2.3.4:7", "pw", ⟨true, "s"⟩⟩

/-- Fresh module state of `main.py`. -/
def mainState0 : MainState := ⟨[], [], []⟩

theorem hy2Sample_shape : hy2Sample = ⟨"1.2.3.4" ++ ":" ++ natRepr 7, "pw", ⟨true, "s"⟩⟩ := by
  rw [natRepr_small (by norm_num)]
  decide

theorem process_hysteria2_sample_once :
    process_hysteria2 envUS hy2Sample mainState0 =
      ⟨[("US", 1)], ["1.2.3.4:7-hysteria2"], [⟨"US-01", "hysteria2", "1.2.3.4", 7, "pw", "s", true⟩]⟩ := by
  rw [hy2Sample_shape]
  rw [process_hysteria2_new envUS "pw" ⟨true, "s"⟩ "1.2.3.4" 7 mainState0 (by decide) rfl
    (by rw [natRepr_small (by norm_num)]; decide)]
  rw [natRepr_small (by norm_num)]
  have hloc : get_physical_location envUS "1.2.3.4" = "US" := rfl
  rw [hloc]
  have hfmt : format_proxy_name "US" mainState0.countryCounters = ("US-01", [("US", 1)]) := by
    rw [format_proxy_name_spec]
    rw [show (alist mainState0.countryCounters "US").getD 0 + 1 = 1 from rfl]
    rw [show pad2 1 = "0" ++ natRepr 1 from rfl, natRepr_one]
    decide
  rw [hfmt]
  decide

theorem process_hysteria2_sample_twice :
    alist (process_hysteria2 envUS hy2Sample
        (process_hysteria2 envUS hy2Sample mainState0)).countryCounters "US" = some 2 ∧
    (process_hysteria2 envUS hy2Sample
        (process_hysteria2 envUS hy2Sample mainState0)).extracted.map ClashProxy.name = ["US-01"] := by
  rw [process_hysteria2_sample_once]
  have hdup := process_hysteria2_dup envUS "pw" ⟨true, "s"⟩ "1.2.3.4" 7
    ⟨[("US", 1)], ["1.2.3.4:7-hysteria2"], [⟨"US-01", "hysteria2", "1.2.3.4", 7, "pw", "s", true⟩]⟩
    (by decide) rfl (by rw [natRepr_small (by norm_num)]; decide)
  rw [← hy2Sample_shape] at hdup
  obtain ⟨hex, _, hcnt⟩ := hdup
  rw [show get_physical_location envUS "1.2.3.4" = "US" from rfl] at hcnt
  refine ⟨?_, ?_⟩
  · rw [hcnt]
    rfl
  · rw [hex]
    rfl

/-! ## A model of `urllib.parse.urlparse` on `scheme://netloc?query#fragment` inputs -/

/-- The components of a parsed URL that the code uses.  `scheme` is lowercased,
as by `urlsplit`; `netloc` stops at the first `/` (IPv6 bracket syntax is not
modelled — no claim involves it). -/
structure UrlParts where
  scheme : String
  netloc : List Char
  query : List Char
  fragment : List Char
deriving DecidableEq, Repr

/-- `urlparse`: split the fragment at the first `#`, the query at the first
`?`, the scheme at the first `:` (requiring `//` next for a netloc), and cut
the netloc at the first `/`. -/
def urlparse (s : List Char) : UrlParts :=
  let p1 := splitFirst '#' s
  let frag := p1.2.getD []
  let p2 := splitFirst '?' p1.1
  let query := p2.2.getD []
  match splitFirst ':' p2.1 with
  | (sch, some rest) =>
    if isPref ['/', '/'] rest then
      ⟨lowerStr ⟨sch⟩, (rest.drop 2).takeWhile (fun c => c != '/'), query, frag⟩
    else ⟨lowerStr ⟨sch⟩, [], query, frag⟩
  | (_, none) => ⟨"", [], query, frag⟩

/-- The `host:port` part of a netloc: everything after the last `@`. -/
def hostinfo (netloc : List Char) : List Char := lastTok (splitOnChar '@' netloc)

/-- `url.hostname`: lowercased host, `none` when empty. -/
def urlHostname (netloc : List Char) : Option String :=
  let host := (hostinfo netloc).takeWhile (fun c => c != ':')
  if host = [] then none else some (lowerStr ⟨host⟩)

/-- `url.port`: `some none` when absent, `some (some n)` for a valid port,
`none` when accessing the property raises `ValueError`. -/
def urlPort (netloc : List Char) : Option (Option Nat) :=
  match splitFirst ':' (hostinfo netloc) with
  | (_, none) => some none
  | (_, some pstr) =>
    match parseIntPy pstr with
    | some n => if n ≤ 65535 then some (some n) else none
    | none => none

/-- Join token lists with a separator character. -/
def joinChar (ch : Char) : List (List Char) → List Char
  | [] => []
  | [x] => x
  | x :: y :: rest => x ++ ch :: joinChar ch (y :: rest)

/-- `url.username`: the part of the userinfo (everything before the last `@`)
up to the first `:`; `none` when the netloc has no `@`. -/
def urlUsername (netloc : List Char) : Option String :=
  match splitOnChar '@' netloc with
  | [_] => none
  | parts => some ⟨(joinChar '@' parts.dropLast).takeWhile (fun c => c != ':')⟩

/-- `urllib.parse.parse_qs` (keys in order of first appearance, first value per
key; `%`-unquoting and `+`-decoding are not modelled — no input in scope uses
them).  Pieces without `=` and pieces with an empty value are dropped, as with
`keep_blank_values=False`. -/
def parseQs (q : List Char) : List (String × String) :=
  (splitOnChar '&' q).foldr
    (fun piece acc =>
      if piece = [] then acc
      else
        match splitFirst '=' piece with
        | (_, none) => acc
        | (k, some v) => if v = [] then acc else (⟨k⟩, ⟨v⟩) :: acc)
    []

/-- `params.get(key, [default])[0]`. -/
def qsGetD (ps : List (String × String)) (k : String) (d : String) : String :=
  (alist ps k).getD d

/-! ## Canonical parsed records (`generate_singbox_config.py` parsers) -/

/-- The canonical dict produced by the per-protocol parsers.  Keys absent from
a given protocol's dict are `none`; `port` is always present.  (A Python value
of `None` under a present key behaves exactly like an absent key for every
`.get` access performed on these dicts, so both are modelled as `none`.) -/
structure ParsedConfig where
  proto : String
  address : Option String := none
  port : Nat := 0
  id : Option String := none
  net : Option String := none
  uuid : Option String := none
  flow : Option String := none
  password : Option String := none
  method : Option String := none
  sni : Option String := none
  alpn : Option String := none
  type : Option String := none
  path : Option String := none
  host : Option String := none
  tls : Option String := none
deriving DecidableEq, Repr

/-- `ConfigToSingbox.parse_vless`. -/
def parse_vless (config : String) : Option ParsedConfig :=
  let url := urlparse config.data
  if url.scheme ≠ "vless" then none
  else
    match urlHostname url.netloc with
    | none => none
    | some _ =>
      let netloc2 := lastTok (splitOnChar '@' url.netloc)
      let params := parseQs url.query
      let addrPort : Option (List Char × List Char) :=
        if netloc2.contains ':' then
          match splitOnChar ':' netloc2 with
          | [a, p] => some (a, p)
          | _ => none
        else some (netloc2, ['4', '4', '3'])
      match addrPort with
      | none => none
      | some (a, p) =>
        match parseIntPy p with
        | none => none
        | some port =>
          some { proto := "vless", address := some ⟨a⟩, port := port,
                 uuid := urlUsername url.netloc,
                 flow := some (qsGetD params "flow" ""),
                 sni := some (qsGetD params "sni" ⟨a⟩),
                 type := some (qsGetD params "type" "tcp"),
                 path := some (qsGetD params "path" ""),
                 host := some (qsGetD params "host" "") }

/-- `ConfigToSingbox.parse_trojan`.  `url.port or 443` treats both an absent
port and port `0` as falsy. -/
def parse_trojan (config : String) : Option ParsedConfig :=
  let url := urlparse config.data
  if url.scheme ≠ "trojan" then none
  else
    match urlHostname url.netloc with
    | none => none
    | some host =>
      match urlPort url.netloc with
      | none => none
      | some portOpt =>
        let port := match portOpt with
          | some p => if p = 0 then 443 else p
          | none => 443
        let params := parseQs url.query
        some { proto := "trojan", address := some host, port := port,
               password := urlUsername url.netloc,
               sni := some (qsGetD params "sni" host),
               alpn := some (qsGetD params "alpn" ""),
               type := some (qsGetD params "type" "tcp"),
               path := some (qsGetD params "path" "") }

/-- The naive query parsing of `parse_hysteria2`:
`dict(pair.split('=') for pair in url.query.split('&'))`.  A piece whose full
split on `=` does not have exactly two parts makes `dict` raise `ValueError`
(`none`); later duplicate keys overwrite earlier ones. -/
def hy2QueryGo : List (List Char) → List (String × String) → Option (List (String × String))
  | [], acc => some acc
  | piece :: rest, acc =>
    match splitOnChar '=' piece with
    | [k, v] => hy2QueryGo rest (aupdate acc ⟨k⟩ ⟨v⟩)
    | _ => none

def hy2Query (q : List Char) : Option (List (String × String)) :=
  hy2QueryGo (splitOnChar '&' q) []

/-- `ConfigToSingbox.parse_hysteria2`.  `not url.port` rejects both a missing
port and port `0`; an empty `url.username` falls back to the `password` query
parameter. -/
def parse_hysteria2 (config : String) : Option ParsedConfig :=
  let url := urlparse config.data
  if url.scheme ≠ "hysteria2" ∧ url.scheme ≠ "hy2" then none
  else
    match urlHostname url.netloc with
    | none => none
    | some host =>
      match urlPort url.netloc with
      | none => none
      | some none => none
      | some (some p) =>
        if p = 0 then none
        else
          match (if url.query = [] then some [] else hy2Query url.query) with
          | none => none
          | some qd =>
            let password := match urlUsername url.netloc with
              | some u => if u = "" then (alist qd "password").getD "" else u
              | none => (alist qd "password").getD ""
            some { proto := "hysteria2", address := some host, port := p,
                   password := some password,
                   sni := some ((alist qd "sni").getD host) }

/-- Bytes → text, as `bytes.decode('utf-8')` on ASCII payloads (every payload
decoded in this code base is ASCII; a byte `≥ 128` would need real UTF-8
decoding and is rejected here). -/
def asciiDecode (bs : List Nat) : Option (List Char) :=
  if bs.all (· < 128) then some (bs.map Char.ofNat) else none

/-- `ConfigToSingbox.parse_shadowsocks`: strip `ss://`, split on `@` (exactly
two parts), base64-decode the userinfo into `method:password`, split the
server part at `#` then `host:port`. -/
def parse_shadowsocks (config : String) : Option ParsedConfig :=
  let rest := pyReplace "ss://".data [] config.data
  match splitOnChar '@' rest with
  | [p0, p1] =>
    match b64decode p0 with
    | none => none
    | some bytes =>
      match asciiDecode bytes with
      | none => none
      | some mp =>
        match splitFirst ':' mp with
        | (_, none) => none
        | (m, some pw) =>
          let serverParts := (splitOnChar '#' p1).headD []
          match splitOnChar ':' serverParts with
          | [h, prt] =>
            match parseIntPy prt with
            | none => none
            | some port =>
              some { proto := "shadowsocks", address := some ⟨h⟩, port := port,
                     method := some ⟨m⟩, password := some ⟨pw⟩ }
          | _ => none
  | _ => none

/-! ## Character classes and base64 alphabet facts -/

/-- Hostname-ish characters: ASCII letters, digits, `.` and `-`. -/
def isHostChar (c : Char) : Bool :=
  (48 ≤ c.toNat && c.toNat ≤ 57) || (65 ≤ c.toNat && c.toNat ≤ 90) ||
    (97 ≤ c.toNat && c.toNat ≤ 122) || c = '.' || c = '-'

theorem hostChar_cases {c : Char} (h : isHostChar c = true) :
    (48 ≤ c.toNat ∧ c.toNat ≤ 57) ∨ (65 ≤ c.toNat ∧ c.toNat ≤ 90) ∨
      (97 ≤ c.toNat ∧ c.toNat ≤ 122) ∨ c = '.' ∨ c = '-' := by
  simp only [isHostChar, Bool.or_eq_true, Bool.and_eq_true, decide_eq_true_eq] at h
  tauto

theorem hostChar_lt128 {c : Char} (h : isHostChar c = true) : c.toNat < 128 := by
  rcases hostChar_cases h with ⟨h1, h2⟩ | ⟨h1, h2⟩ | ⟨h1, h2⟩ | rfl | rfl
  · omega
  · omega
  · omega
  · decide
  · decide

theorem hostChar_ne {c : Char} (h : isHostChar c = true) {ch : Char}
    (hch : isHostChar ch = false) : c ≠ ch := by
  rintro rfl
  rw [h] at hch
  cases hch

theorem b64encode_chars : ∀ bs : List Nat, (∀ x ∈ bs, x < 256) →
    ∀ c ∈ b64encode bs, (charSextet c).isSome = true ∨ c = '='
  | [], _ => by simp [b64encode]
  | [a], h => by
    have ha : a < 256 := h a (by simp)
    intro c hc
    simp only [b64encode, List.mem_cons, List.mem_singleton] at hc
    rcases hc with rfl | rfl | rfl | hc
    · exact Or.inl (by rw [charSextet_sextetChar (by omega : a / 4 < 64)]; rfl)
    · exact Or.inl (by rw [charSextet_sextetChar (by omega : a % 4 * 16 < 64)]; rfl)
    · exact Or.inr rfl
    · simp at hc
      exact Or.inr hc
  | [a, b], h => by
    have ha : a < 256 := h a (by simp)
    have hb : b < 256 := h b (by simp)
    intro c hc
    simp only [b64encode, List.mem_cons, List.mem_singleton] at hc
    rcases hc with rfl | rfl | rfl | hc
    · exact Or.inl (by rw [charSextet_sextetChar (by omega : a / 4 < 64)]; rfl)
    · exact Or.inl (by rw [charSextet_sextetChar (by omega : a % 4 * 16 + b / 16 < 64)]; rfl)
    · exact Or.inl (by rw [charSextet_sextetChar (by omega : b % 16 * 4 < 64)]; rfl)
    · simp at hc
      exact Or.inr hc
  | a :: b :: c0 :: d :: rest, h => by
    have ha : a < 256 := h a (by simp)
    have hb : b < 256 := h b (by simp)
    have hc0 : c0 < 256 := h c0 (by simp)
    intro c hc
    simp only [b64encode, List.mem_cons] at hc
    rcases hc with rfl | rfl | rfl | rfl | hc
    · exact Or.inl (by rw [charSextet_sextetChar (by omega : a / 4 < 64)]; rfl)
    · exact Or.inl (by rw [charSextet_sextetChar (by omega : a % 4 * 16 + b / 16 < 64)]; rfl)
    · exact Or.inl (by rw [charSextet_sextetChar (by omega : b % 16 * 4 + c0 / 64 < 64)]; rfl)
    · exact Or.inl (by rw [charSextet_sextetChar (by omega : c0 % 64 < 64)]; rfl)
    · exact b64encode_chars (d :: rest) (fun x hx => h x (by simp at hx ⊢; tauto)) c hc
  | [a, b, c0], h => by
    have ha : a < 256 := h a (by simp)
    have hb : b < 256 := h b (by simp)
    have hc0 : c0 < 256 := h c0 (by simp)
    intro c hc
    simp only [b64encode, List.mem_cons, List.mem_singleton] at hc
    rcases hc with rfl | rfl | rfl | rfl | hc
    · exact Or.inl (by rw [charSextet_sextetChar (by omega : a / 4 < 64)]; rfl)
    · exact Or.inl (by rw [charSextet_sextetChar (by omega : a % 4 * 16 + b / 16 < 64)]; rfl)
    · exact Or.inl (by rw [charSextet_sextetChar (by omega : b % 16 * 4 + c0 / 64 < 64)]; rfl)
    · exact Or.inl (by rw [charSextet_sextetChar (by omega : c0 % 64 < 64)]; rfl)
    · simp at hc

theorem not_mem_b64encode {ch : Char} (h1 : charSextet ch = none) (h2 : ch ≠ '=')
    (bs : List Nat) (hb : ∀ x ∈ bs, x < 256) : ch ∉ b64encode bs := by
  intro hm
  rcases b64encode_chars bs hb ch hm with hs | he
  · rw [h1] at hs
    cases hs
  · exact h2 he

theorem asciiDecode_map (l : List Char) (h : ∀ c ∈ l, c.toNat < 128) :
    asciiDecode (l.map Char.toNat) = some l := by
  unfold asciiDecode
  rw [if_pos]
  · rw [List.map_map]
    congr 1
    conv_rhs => rw [← List.map_id l]
    apply List.map_congr_left
    intro c _
    exact Char.ofNat_toNat c
  · rw [List.all_eq_true]
    intro x hx
    rcases List.mem_map.mp hx with ⟨c, hc, rfl⟩
    simp only [decide_eq_true_eq]
    exact h c hc

/-- `base64.b64encode(s.encode()).decode()` for an ASCII string `s`. -/
def b64encodeStr (s : String) : String := ⟨b64encode (s.data.map Char.toNat)⟩

/-- The `ss://` form with only `method:password` base64-encoded. -/
def ssUserinfoForm (method password host : String) (port : Nat) : String :=
  "ss://" ++ b64encodeStr (method ++ ":" ++ password) ++ "@" ++ host ++ ":" ++ natRepr port

/-- The `ss://` form with the whole `method:password@host:port` base64-encoded. -/
def ssBlobForm (method password host : String) (port : Nat) : String :=
  "ss://" ++ b64encodeStr (method ++ ":" ++ password ++ "@" ++ host ++ ":" ++ natRepr port)

theorem mem_of_getLast? {α : Type} : ∀ {l : List α} {x : α}, l.getLast? = some x → x ∈ l
  | [], x, h => by simp [List.getLast?] at h
  | [a], x, h => by
    simp only [List.getLast?_singleton, Option.some.injEq] at h
    simp [h]
  | a :: b :: t, x, h => by
    rw [List.getLast?_cons_cons] at h
    simp [mem_of_getLast? h]

theorem not_mem_hostPort (H D : List Char) (hH : ∀ c ∈ H, isHostChar c = true)
    (hD : ∀ c ∈ D, isDigitChar c = true) {ch : Char} (h1 : isHostChar ch = false)
    (h2 : ch ≠ ':') (h3 : isDigitChar ch = false) : ch ∉ H ++ ':' :: D := by
  intro hm
  rcases List.mem_append.mp hm with hm | hm
  · rw [hH ch hm] at h1
    cases h1
  · rcases List.mem_cons.mp hm with rfl | hm
    · exact h2 rfl
    · rw [hD ch hm] at h3
      cases h3

theorem colonSlash_hostPort (H D : List Char) (hH : ∀ c ∈ H, isHostChar c = true)
    (hDne : D ≠ []) (hD : ∀ c ∈ D, isDigitChar c = true) :
    colonSlash (H ++ ':' :: D) = false := by
  apply colonSlash_append_false
  · exact colonSlash_none (fun c hc => hostChar_ne (hH c hc) (by decide))
  · cases D with
    | nil => cases hDne rfl
    | cons d ds =>
      have hd : d ≠ '/' := digit_ne (hD d (by simp)) (by decide)
      have : colonSlash (d :: ds) = false :=
        colonSlash_none (fun c hc => digit_ne (hD c hc) (by decide))
      cases ds with
      | nil => simp [colonSlash, hd]
      | cons e es =>
        simp only [colonSlash, Bool.or_eq_false_iff] at this ⊢
        exact ⟨by simp [hd], by simp [colonSlash, this.1, this.2]⟩
  · intro hl
    exact absurd (mem_of_getLast? hl)
      (fun hm => absurd (hH ':' hm) (by decide))

theorem b64encodeStr_data (s : String) :
    (b64encodeStr s).data = b64encode (s.data.map Char.toNat) := rfl

theorem natRepr_data (n : Nat) : (natRepr n).data = natDigits n := rfl

theorem strcat_mth_pw_data (m pw : String) :
    (m ++ ":" ++ pw).data = m.data ++ ':' :: pw.data := by
  simp only [String.data_append, show (":" : String).data = [':'] from rfl,
    List.append_assoc, List.singleton_append, List.cons_append, List.nil_append]

theorem ssUserinfoForm_data (m pw h : String) (n : Nat) :
    (ssUserinfoForm m pw h n).data =
      "ss://".data ++ (b64encode ((m.data ++ ':' :: pw.data).map Char.toNat) ++
        ('@' :: (h.data ++ ':' :: natDigits n))) := by
  show ("ss://" ++ b64encodeStr (m ++ ":" ++ pw) ++ "@" ++ h ++ ":" ++ natRepr n).data = _
  simp only [String.data_append, b64encodeStr_data, strcat_mth_pw_data, natRepr_data,
    show ("@" : String).data = ['@'] from rfl, show (":" : String).data = [':'] from rfl,
    List.append_assoc, List.singleton_append, List.cons_append, List.nil_append]

theorem ssBlobForm_data (m pw h : String) (n : Nat) :
    (ssBlobForm m pw h n).data =
      "ss://".data ++ b64encode ((m.data ++ ':' :: (pw.data ++ '@' ::
        (h.data ++ ':' :: natDigits n))).map Char.toNat) := by
  show ("ss://" ++ b64encodeStr (m ++ ":" ++ pw ++ "@" ++ h ++ ":" ++ natRepr n)).data = _
  have harg : (m ++ ":" ++ pw ++ "@" ++ h ++ ":" ++ natRepr n).data =
      m.data ++ ':' :: (pw.data ++ '@' :: (h.data ++ ':' :: natDigits n)) := by
    simp only [String.data_append, natRepr_data, show ("@" : String).data = ['@'] from rfl,
      show (":" : String).data = [':'] from rfl,
      List.append_assoc, List.singleton_append, List.cons_append, List.nil_append]
  rw [String.data_append, b64encodeStr_data, harg]

theorem parse_ss_userinfo_form (m pw h : String) (n : Nat)
    (hm : ∀ c ∈ m.data, c.toNat < 128 ∧ c ≠ ':')
    (hp : ∀ c ∈ pw.data, c.toNat < 128)
    (hh : ∀ c ∈ h.data, isHostChar c = true) :
    parse_shadowsocks (ssUserinfoForm m pw h n) =
      some { proto := "shadowsocks", address := some h, port := n,
             method := some m, password := some pw } := by
  have hb : ∀ x ∈ (m.data ++ ':' :: pw.data).map Char.toNat, x < 256 := by
    intro x hx
    rcases List.mem_map.mp hx with ⟨c, hc, rfl⟩
    rcases List.mem_append.mp hc with hc | hc
    · exact Nat.lt_trans (hm c hc).1 (by norm_num)
    · rcases List.mem_cons.mp hc with rfl | hc
      · decide
      · exact Nat.lt_trans (hp c hc) (by norm_num)
  have hcolon : ':' ∉ b64encode ((m.data ++ ':' :: pw.data).map Char.toNat) :=
    not_mem_b64encode (by decide) (by decide) _ hb
  have hat : '@' ∉ b64encode ((m.data ++ ':' :: pw.data).map Char.toNat) :=
    not_mem_b64encode (by decide) (by decide) _ hb
  have hD := natDigits_all_digits n
  have hDne := natDigits_ne_nil n
  have hcs : colonSlash (b64encode ((m.data ++ ':' :: pw.data).map Char.toNat) ++
      ('@' :: (h.data ++ ':' :: natDigits n))) = false := by
    apply colonSlash_append_false
    · exact colonSlash_none (fun c hc => by rintro rfl; exact hcolon hc)
    · have hT : colonSlash (h.data ++ ':' :: natDigits n) = false :=
        colonSlash_hostPort h.data (natDigits n) hh hDne hD
      cases hcase : h.data ++ ':' :: natDigits n with
      | nil => rfl
      | cons t ts =>
        rw [hcase] at hT
        simp only [colonSlash, Bool.or_eq_false_iff]
        exact ⟨by simp, hT⟩
    · intro hl
      exact absurd (mem_of_getLast? hl) hcolon
  have hnoc : containsSeq "ss://".data (b64encode ((m.data ++ ':' :: pw.data).map Char.toNat) ++
      ('@' :: (h.data ++ ':' :: natDigits n))) = false := by
    rw [show "ss://".data = ['s', 's'] ++ ':' :: '/' :: ['/'] from rfl]
    exact containsSeq_colonSlash_false _ _ _ hcs
  have hrep : pyReplace "ss://".data [] (ssUserinfoForm m pw h n).data =
      b64encode ((m.data ++ ':' :: pw.data).map Char.toNat) ++
        ('@' :: (h.data ++ ':' :: natDigits n)) := by
    rw [ssUserinfoForm_data]
    exact pyReplace_strip_head 's' "s://".data _ hnoc
  have hsplitAt : splitOnChar '@' (b64encode ((m.data ++ ':' :: pw.data).map Char.toNat) ++
      ('@' :: (h.data ++ ':' :: natDigits n))) =
      [b64encode ((m.data ++ ':' :: pw.data).map Char.toNat), h.data ++ ':' :: natDigits n] := by
    rw [splitOnChar_app hat]
    rw [splitOnChar_no (not_mem_hostPort h.data (natDigits n) hh hD (by decide) (by decide)
      (by decide))]
  have hdec : b64decode (b64encode ((m.data ++ ':' :: pw.data).map Char.toNat)) =
      some ((m.data ++ ':' :: pw.data).map Char.toNat) := b64_roundtrip _ hb
  have hascii : asciiDecode ((m.data ++ ':' :: pw.data).map Char.toNat) =
      some (m.data ++ ':' :: pw.data) := by
    apply asciiDecode_map
    intro c hc
    rcases List.mem_append.mp hc with hc | hc
    · exact (hm c hc).1
    · rcases List.mem_cons.mp hc with rfl | hc
      · decide
      · exact hp c hc
  have hsplitMP : splitFirst ':' (m.data ++ ':' :: pw.data) = (m.data, some pw.data) :=
    splitFirst_app (fun hc => (hm ':' hc).2 rfl) pw.data
  have hhash : splitOnChar '#' (h.data ++ ':' :: natDigits n) =
      [h.data ++ ':' :: natDigits n] :=
    splitOnChar_no (not_mem_hostPort h.data (natDigits n) hh hD (by decide) (by decide)
      (by decide))
  have hsplitHP : splitOnChar ':' (h.data ++ ':' :: natDigits n) = [h.data, natDigits n] := by
    rw [splitOnChar_app (fun hc => absurd (hh ':' hc) (by decide))]
    rw [splitOnChar_no (colon_not_in_natDigits n)]
  unfold parse_shadowsocks
  dsimp only
  rw [hrep, hsplitAt]
  dsimp only
  rw [hdec]
  dsimp only
  rw [hascii]
  dsimp only
  rw [hsplitMP]
  dsimp only
  rw [hhash]
  dsimp only [List.headD]
  rw [hsplitHP]
  dsimp only
  rw [parseIntPy_natDigits n]

theorem parse_ss_blob_form (m pw h : String) (n : Nat)
    (hm : ∀ c ∈ m.data, c.toNat < 128)
    (hp : ∀ c ∈ pw.data, c.toNat < 128)
    (hh : ∀ c ∈ h.data, isHostChar c = true) :
    parse_shadowsocks (ssBlobForm m pw h n) = none := by
  have hb : ∀ x ∈ (m.data ++ ':' :: (pw.data ++ '@' ::
      (h.data ++ ':' :: natDigits n))).map Char.toNat, x < 256 := by
    intro x hx
    rcases List.mem_map.mp hx with ⟨c, hc, rfl⟩
    rcases List.mem_append.mp hc with hc | hc
    · exact Nat.lt_trans (hm c hc) (by norm_num)
    · rcases List.mem_cons.mp hc with rfl | hc
      · decide
      · rcases List.mem_append.mp hc with hc | hc
        · exact Nat.lt_trans (hp c hc) (by norm_num)
        · rcases List.mem_cons.mp hc with rfl | hc
          · decide
          · rcases List.mem_append.mp hc with hc | hc
            · exact Nat.lt_trans (hostChar_lt128 (hh c hc)) (by norm_num)
            · rcases List.mem_cons.mp hc with rfl | hc
              · decide
              · have := digit_toNat_bounds (natDigits_all_digits n c hc)
                omega
  have hcolon : ':' ∉ b64encode ((m.data ++ ':' :: (pw.data ++ '@' ::
      (h.data ++ ':' :: natDigits n))).map Char.toNat) :=
    not_mem_b64encode (by decide) (by decide) _ hb
  have hat : '@' ∉ b64encode ((m.data ++ ':' :: (pw.data ++ '@' ::
      (h.data ++ ':' :: natDigits n))).map Char.toNat) :=
    not_mem_b64encode (by decide) (by decide) _ hb
  have hcs : colonSlash (b64encode ((m.data ++ ':' :: (pw.data ++ '@' ::
      (h.data ++ ':' :: natDigits n))).map Char.toNat)) = false :=
    colonSlash_none (fun c hc => by rintro rfl; exact hcolon hc)
  have hnoc : containsSeq "ss://".data (b64encode ((m.data ++ ':' :: (pw.data ++ '@' ::
      (h.data ++ ':' :: natDigits n))).map Char.toNat)) = false := by
    rw [show "ss://".data = ['s', 's'] ++ ':' :: '/' :: ['/'] from rfl]
    exact containsSeq_colonSlash_false _ _ _ hcs
  have hrep : pyReplace "ss://".data [] (ssBlobForm m pw h n).data =
      b64encode ((m.data ++ ':' :: (pw.data ++ '@' ::
        (h.data ++ ':' :: natDigits n))).map Char.toNat) := by
    rw [ssBlobForm_data]
    exact pyReplace_strip_head 's' "s://".data _ hnoc
  have hsplitAt : splitOnChar '@' (b64encode ((m.data ++ ':' :: (pw.data ++ '@' ::
      (h.data ++ ':' :: natDigits n))).map Char.toNat)) =
      [b64encode ((m.data ++ ':' :: (pw.data ++ '@' ::
        (h.data ++ ':' :: natDigits n))).map Char.toNat)] := splitOnChar_no hat
  unfold parse_shadowsocks
  dsimp only
  rw [hrep, hsplitAt]

/-! ## Rendering URLs of the form `scheme://user@host?query#frag` (no port) -/

theorem list_contains_eq_false {l : List Char} {ch : Char} (h : ch ∉ l) :
    l.contains ch = false := by
  induction l with
  | nil => rfl
  | cons c cs ih =>
    simp only [List.contains_cons, Bool.or_eq_false_iff]
    constructor
    · simp only [beq_eq_false_iff_ne, ne_eq]
      rintro rfl
      exact h (by simp)
    · exact ih (fun hm => h (by simp [hm]))

/-- `scheme://user@host?query#frag` — a descriptor URL omitting the port. -/
def renderUrlNoPort (scheme u host q f : String) : String :=
  scheme ++ "://" ++ u ++ "@" ++ host ++ "?" ++ q ++ "#" ++ f

theorem renderUrlNoPort_data (scheme u host q f : String) :
    (renderUrlNoPort scheme u host q f).data =
      ((scheme.data ++ ':' :: '/' :: '/' :: (u.data ++ '@' :: host.data)) ++ '?' :: q.data)
        ++ '#' :: f.data := by
  show (scheme ++ "://" ++ u ++ "@" ++ host ++ "?" ++ q ++ "#" ++ f).data = _
  simp only [String.data_append, show ("://" : String).data = [':', '/', '/'] from rfl,
    show ("@" : String).data = ['@'] from rfl, show ("?" : String).data = ['?'] from rfl,
    show ("#" : String).data = ['#'] from rfl,
    List.append_assoc, List.cons_append, List.singleton_append, List.nil_append]

theorem urlparse_renderNoPort (scheme u host q f : String)
    (hs : ∀ c ∈ scheme.data, isHostChar c = true)
    (hu : ∀ c ∈ u.data, isHostChar c = true)
    (hh : ∀ c ∈ host.data, isHostChar c = true)
    (hq : '#' ∉ q.data) :
    urlparse (renderUrlNoPort scheme u host q f).data =
      ⟨lowerStr ⟨scheme.data⟩, u.data ++ '@' :: host.data, q.data, f.data⟩ := by
  have hX : '#' ∉ (scheme.data ++ ':' :: '/' :: '/' :: (u.data ++ '@' :: host.data))
      ++ '?' :: q.data := by
    intro hm
    simp only [List.mem_append, List.mem_cons] at hm
    repeat' rcases hm with hm | hm
    all_goals
      first
        | exact absurd (hs '#' hm) (by decide)
        | exact absurd (hu '#' hm) (by decide)
        | exact absurd (hh '#' hm) (by decide)
        | exact hq hm
        | exact absurd hm (by decide)
  have hY : '?' ∉ scheme.data ++ ':' :: '/' :: '/' :: (u.data ++ '@' :: host.data) := by
    intro hm
    simp only [List.mem_append, List.mem_cons] at hm
    repeat' rcases hm with hm | hm
    all_goals
      first
        | exact absurd (hs '?' hm) (by decide)
        | exact absurd (hu '?' hm) (by decide)
        | exact absurd (hh '?' hm) (by decide)
        | exact absurd hm (by decide)
  have hZ : ':' ∉ scheme.data := fun hm => absurd (hs ':' hm) (by decide)
  have hW : ∀ c ∈ u.data ++ '@' :: host.data, (c != '/') = true := by
    intro c hc
    simp only [bne_iff_ne, ne_eq]
    rcases List.mem_append.mp hc with hc | hc
    · exact hostChar_ne (hu c hc) (by decide)
    · rcases List.mem_cons.mp hc with rfl | hc
      · decide
      · exact hostChar_ne (hh c hc) (by decide)
  unfold urlparse
  rw [renderUrlNoPort_data]
  rw [splitFirst_app hX f.data]
  dsimp only
  rw [splitFirst_app hY q.data]
  dsimp only
  rw [splitFirst_app hZ ('/' :: '/' :: (u.data ++ '@' :: host.data))]
  dsimp only
  rw [if_pos (by simp [isPref])]
  simp only [List.drop_succ_cons, List.drop_zero]
  rw [takeWhile_all _ _ hW]
  rfl

theorem hostinfo_userHost (u host : String)
    (hu : '@' ∉ u.data) (hh : '@' ∉ host.data) :
    hostinfo (u.data ++ '@' :: host.data) = host.data := by
  unfold hostinfo
  rw [splitOnChar_app hu, splitOnChar_no hh]
  rfl

theorem urlparse_components_userHost (u host : String)
    (hu : ∀ c ∈ u.data, isHostChar c = true)
    (hh : ∀ c ∈ host.data, isHostChar c = true) (hne : host.data ≠ []) :
    urlHostname (u.data ++ '@' :: host.data) = some (lowerStr ⟨host.data⟩) ∧
    urlPort (u.data ++ '@' :: host.data) = some none ∧
    urlUsername (u.data ++ '@' :: host.data) = some u := by
  have hu' : '@' ∉ u.data := fun hm => absurd (hu '@' hm) (by decide)
  have hh' : '@' ∉ host.data := fun hm => absurd (hh '@' hm) (by decide)
  have hhc : ':' ∉ host.data := fun hm => absurd (hh ':' hm) (by decide)
  have hinfo := hostinfo_userHost u host hu' hh'
  refine ⟨?_, ?_, ?_⟩
  · unfold urlHostname
    rw [hinfo, takeWhile_all _ _ (mem_ne_of_not_mem hhc), if_neg hne]
  · unfold urlPort
    rw [hinfo, splitFirst_no hhc]
  · unfold urlUsername
    rw [splitOnChar_app hu', splitOnChar_no hh']
    dsimp only [List.dropLast, joinChar]
    rw [takeWhile_all _ _ (mem_ne_of_not_mem (fun hm => absurd (hu ':' hm) (by decide)))]

theorem parse_vless_noPort (u host q f : String)
    (hu : ∀ c ∈ u.data, isHostChar c = true)
    (hh : ∀ c ∈ host.data, isHostChar c = true) (hne : host.data ≠ [])
    (hq : '#' ∉ q.data) :
    parse_vless (renderUrlNoPort "vless" u host q f) =
      some { proto := "vless", address := some host, port := 443,
             uuid := some u,
             flow := some (qsGetD (parseQs q.data) "flow" ""),
             sni := some (qsGetD (parseQs q.data) "sni" host),
             type := some (qsGetD (parseQs q.data) "type" "tcp"),
             path := some (qsGetD (parseQs q.data) "path" ""),
             host := some (qsGetD (parseQs q.data) "host" "") } := by
  have hs : ∀ c ∈ ("vless" : String).data, isHostChar c = true := by decide
  have hup := urlparse_renderNoPort "vless" u host q f hs hu hh hq
  have hcomp := urlparse_components_userHost u host hu hh hne
  have hu' : '@' ∉ u.data := fun hm => absurd (hu '@' hm) (by decide)
  have hh' : '@' ∉ host.data := fun hm => absurd (hh '@' hm) (by decide)
  have hhc : ':' ∉ host.data := fun hm => absurd (hh ':' hm) (by decide)
  unfold parse_vless
  rw [hup]
  dsimp only
  rw [if_neg (fun hc => hc (by decide))]
  rw [hcomp.1]
  dsimp only
  rw [splitOnChar_app hu', splitOnChar_no hh']
  dsimp only [lastTok]
  rw [list_contains_eq_false hhc]
  simp only [Bool.false_eq_true, if_false]
  rw [show parseIntPy ['4', '4', '3'] = some 443 from by decide]
  dsimp only
  rw [hcomp.2.2]

theorem parse_trojan_noPort (u host q f : String)
    (hu : ∀ c ∈ u.data, isHostChar c = true)
    (hh : ∀ c ∈ host.data, isHostChar c = true) (hne : host.data ≠ [])
    (hq : '#' ∉ q.data) :
    parse_trojan (renderUrlNoPort "trojan" u host q f) =
      some { proto := "trojan", address := some (lowerStr host), port := 443,
             password := some u,
             sni := some (qsGetD (parseQs q.data) "sni" (lowerStr host)),
             alpn := some (qsGetD (parseQs q.data) "alpn" ""),
             type := some (qsGetD (parseQs q.data) "type" "tcp"),
             path := some (qsGetD (parseQs q.data) "path" "") } := by
  have hs : ∀ c ∈ ("trojan" : String).data, isHostChar c = true := by decide
  have hup := urlparse_renderNoPort "trojan" u host q f hs hu hh hq
  have hcomp := urlparse_components_userHost u host hu hh hne
  unfold parse_trojan
  rw [hup]
  dsimp only
  rw [if_neg (fun hc => hc (by decide))]
  rw [hcomp.1]
  dsimp only
  rw [hcomp.2.1]
  dsimp only
  rw [hcomp.2.2]

theorem hy2QueryGo_malformed :
    ∀ pieces : List (List Char), ∀ acc,
      (∃ p ∈ pieces, (splitOnChar '=' p).length ≠ 2) → hy2QueryGo pieces acc = none := by
  intro pieces
  induction pieces with
  | nil => intro acc h; simp at h
  | cons p rest ih =>
    intro acc h
    rw [hy2QueryGo]
    by_cases hp : (splitOnChar '=' p).length = 2
    · obtain ⟨k, v, hkv⟩ : ∃ k v, splitOnChar '=' p = [k, v] := by
        cases hsp : splitOnChar '=' p with
        | nil => rw [hsp] at hp; simp at hp
        | cons x xs =>
          cases xs with
          | nil => rw [hsp] at hp; simp at hp
          | cons y ys =>
            cases ys with
            | nil => exact ⟨x, y, rfl⟩
            | cons z zs => rw [hsp] at hp; simp at hp
      rw [hkv]
      dsimp only
      apply ih
      obtain ⟨p', hp', hlen⟩ := h
      rcases List.mem_cons.mp hp' with rfl | hp'
      · rw [hkv] at hlen; simp at hlen
      · exact ⟨p', hp', hlen⟩
    · cases hsp : splitOnChar '=' p with
      | nil => rfl
      | cons x xs =>
        cases xs with
        | nil => rfl
        | cons y ys =>
          cases ys with
          | nil => rw [hsp] at hp; simp at hp
          | cons z zs => rfl

theorem parse_hysteria2_malformed_query (config : String)
    (hq : (urlparse config.data).query ≠ [])
    (hmal : ∃ p ∈ splitOnChar '&' (urlparse config.data).query,
      (splitOnChar '=' p).length ≠ 2) :
    parse_hysteria2 config = none := by
  have hnone : hy2Query (urlparse config.data).query = none := by
    unfold hy2Query
    exact hy2QueryGo_malformed _ [] hmal
  unfold parse_hysteria2
  dsimp only
  split
  · rfl
  · split
    · rfl
    · split
      · rfl
      · rfl
      · split
        · rfl
        · split
          · rfl
          · next qd heq =>
              rw [hnone] at heq
              cases heq

/-! ## `ConfigToSingbox.make_outbound_from_parsed` -/

/-- The `transport` sub-dict of an outbound (`{}` = all fields absent). -/
structure TransportConfig where
  type : Option String := none
  path : Option String := none
  hostHeader : Option String := none
deriving DecidableEq, Repr

/-- The `tls` sub-dict of an outbound.  (`alpn` is only emitted for trojan;
it defaults to `[]` here for the protocols that do not set it.) -/
structure TlsConfig where
  enabled : Bool
  insecure : Bool
  server_name : String
  alpn : List String := []
deriving DecidableEq, Repr

/-- A sing-box outbound as built by `make_outbound_from_parsed`; keys a given
protocol does not emit are `none`. -/
structure Outbound where
  type : String
  tag : String
  server : String
  server_port : Nat
  uuid : Option String := none
  security : Option String := none
  flow : Option String := none
  password : Option String := none
  method : Option String := none
  transport : Option TransportConfig := none
  tls : Option TlsConfig := none
deriving DecidableEq, Repr

/-- Python `x or default` for an optional string: an absent or empty value
falls back to the default. -/
def truthyOr (o : Option String) (d : String) : String :=
  match o with
  | some s => if s = "" then d else s
  | none => d

/-- Python `if dict.get(k):` — present and non-empty. -/
def truthyOpt (o : Option String) : Option String :=
  match o with
  | some s => if s = "" then none else some s
  | none => none

def make_outbound_from_parsed (parsed : ParsedConfig) (tagMap : List (String × String)) :
    Option Outbound :=
  if parsed.proto = "" ∨ parsed.address = none ∨ parsed.address = some "" then none
  else
    let address := parsed.address.getD ""
    let tag := (alist tagMap address).getD "UNK 1 - ()"
    if parsed.proto = "vmess" then
      let net := parsed.net.getD "tcp"
      let transport : TransportConfig :=
        if net = "ws" ∨ net = "h2" then
          { type := some net, path := truthyOpt parsed.path, hostHeader := truthyOpt parsed.host }
        else {}
      some { type := "vmess", tag := tag, server := address, server_port := parsed.port,
             uuid := parsed.id, security := some "auto", transport := some transport,
             tls := some { enabled := parsed.tls = some "tls", insecure := true,
                           server_name := truthyOr parsed.host address } }
    else if parsed.proto = "vless" then
      let transport : TransportConfig :=
        if parsed.type = some "ws" then
          { type := some "ws", path := truthyOpt parsed.path, hostHeader := truthyOpt parsed.host }
        else {}
      some { type := "vless", tag := tag, server := address, server_port := parsed.port,
             uuid := parsed.uuid, flow := parsed.flow, transport := some transport,
             tls := some { enabled := true, server_name := truthyOr parsed.sni address,
                           insecure := true } }
    else if parsed.proto = "trojan" then
      let transport : TransportConfig :=
        if parsed.type ≠ some "tcp" ∧ truthyOpt parsed.path ≠ none then
          { type := parsed.type, path := truthyOpt parsed.path }
        else {}
      some { type := "trojan", tag := tag, server := address, server_port := parsed.port,
             password := parsed.password, transport := some transport,
             tls := some { enabled := true, server_name := truthyOr parsed.sni address,
                           alpn := match truthyOpt parsed.alpn with
                             | some a => (splitOnChar ',' a.data).map (fun l => (⟨l⟩ : String))
                             | none => [],
                           insecure := true } }
    else if parsed.proto = "hysteria2" then
      some { type := "hysteria2", tag := tag, server := address, server_port := parsed.port,
             password := parsed.password,
             tls := some { enabled := true, insecure := true,
                           server_name := truthyOr parsed.sni address } }
    else if parsed.proto = "shadowsocks" then
      some { type := "shadowsocks", tag := tag, server := address, server_port := parsed.port,
             method := parsed.method, password := parsed.password }
    else none

theorem outbound_tls_insecure (p : ParsedConfig) (tm : List (String × String)) (ob : Outbound)
    (hp : p.proto = "vmess" ∨ p.proto = "vless" ∨ p.proto = "trojan" ∨ p.proto = "hysteria2")
    (h : make_outbound_from_parsed p tm = some ob) :
    ∃ t, ob.tls = some t ∧ t.insecure = true := by
  unfold make_outbound_from_parsed at h
  by_cases h0 : p.proto = "" ∨ p.address = none ∨ p.address = some ""
  · rw [if_pos h0] at h
    cases h
  · rw [if_neg h0] at h
    dsimp only at h
    rcases hp with h1 | h1 | h1 | h1 <;> simp only [h1] at h <;>
      simp only [if_pos rfl, reduceIte] at h
    · obtain rfl := (Option.some.injEq _ _).mp h.symm
      exact ⟨_, rfl, rfl⟩
    · obtain rfl := (Option.some.injEq _ _).mp h.symm
      exact ⟨_, rfl, rfl⟩
    · obtain rfl := (Option.some.injEq _ _).mp h.symm
      exact ⟨_, rfl, rfl⟩
    · obtain rfl := (Option.some.injEq _ _).mp h.symm
      exact ⟨_, rfl, rfl⟩

/-! ## The protocol / country allow-list filter of `process_configs` -/

/-- The cleaned entry list of a filter pattern: entries stripped, empty ones
dropped (`c.strip() for c in env.split(",") if c.strip()`). -/
def patternOf (entries : List String) : List String :=
  (entries.map (fun e => (⟨pyStrip e.data⟩ : String))).filter (fun e => e ≠ "")

/-- `re.compile("(" + "|".join(entries) + ")", re.IGNORECASE).search(s)` for
literal (metacharacter-free) entries: does some entry occur, case-insensitively,
as a substring of `s`?  An empty entry list yields the pattern `()`, which
matches every string. -/
def patternSearch (entries : List String) (s : String) : Bool :=
  let cl := patternOf entries
  cl.isEmpty || cl.any (fun e => containsSeq (lowerStr e).data (lowerStr s).data)

/-- `tag_map.get(addr, '').split(' ')[0]`. -/
def firstWord (s : String) : String := ⟨s.data.takeWhile (fun c => c != ' ')⟩

/-- The per-record filter applied in `process_configs`: the record is kept iff
the protocol pattern matches its `proto` and the country pattern matches the
first word of its tag. -/
def keepRecord (protocols countries : List String) (tagMap : List (String × String))
    (p : ParsedConfig) : Bool :=
  patternSearch protocols p.proto &&
    patternSearch countries (firstWord ((alist tagMap (p.address.getD "")).getD ""))

theorem patternSearch_iff (entries : List String) (s : String) :
    patternSearch entries s = true ↔
      (patternOf entries = [] ∨
        ∃ e ∈ patternOf entries, ∃ pre post,
          (lowerStr s).data = pre ++ (lowerStr e).data ++ post) := by
  unfold patternSearch
  simp only [Bool.or_eq_true, List.isEmpty_iff, List.any_eq_true]
  constructor
  · rintro (h | ⟨e, he, hc⟩)
    · exact Or.inl h
    · exact Or.inr ⟨e, he, (containsSeq_iff _ _).mp hc⟩
  · rintro (h | ⟨e, he, hc⟩)
    · exact Or.inl h
    · exact Or.inr ⟨e, he, (containsSeq_iff _ _).mpr hc⟩

theorem keepRecord_iff (protocols countries : List String) (tagMap : List (String × String))
    (p : ParsedConfig) :
    keepRecord protocols countries tagMap p = true ↔
      ((patternOf protocols = [] ∨
        ∃ e ∈ patternOf protocols, ∃ pre post,
          (lowerStr p.proto).data = pre ++ (lowerStr e).data ++ post) ∧
       (patternOf countries = [] ∨
        ∃ e ∈ patternOf countries, ∃ pre post,
          (lowerStr (firstWord ((alist tagMap (p.address.getD "")).getD ""))).data =
            pre ++ (lowerStr e).data ++ post)) := by
  unfold keepRecord
  rw [Bool.and_eq_true, patternSearch_iff, patternSearch_iff]

/-! ## `GeoIPResolver.get_country_and_isp` -/

/-- External collaborators of the resolver: `ipaddress.ip_address` validity,
DNS, the country database (`country_response.country.iso_code`, where `none`
covers both a reader exception and a missing iso code) and the ASN database
(`autonomous_system_organization`). -/
structure GeoEnv where
  isIp : String → Bool
  dns : String → Option String
  countryDb : String → Option String
  asnDb : String → Option String

/-- `get_country_and_isp`: check the cache, resolve a hostname via DNS
(falling back to the raw input), then look up country (lowercased) and ISP,
substituting `""` for either on failure; the result is cached. -/
def get_country_and_isp (env : GeoEnv) (cache : List (String × (String × String)))
    (host : String) : (String × String) × List (String × (String × String)) :=
  match alist cache host with
  | some v => (v, cache)
  | none =>
    let ip := if env.isIp host then host else ((env.dns host).getD host)
    let cc := match env.countryDb ip with
      | some c => lowerStr c
      | none => ""
    let isp := (env.asnDb ip).getD ""
    ((cc, isp), aupdate cache host (cc, isp))

theorem get_country_and_isp_failures (env : GeoEnv)
    (cache : List (String × (String × String))) (host : String)
    (hmiss : alist cache host = none) :
    (env.countryDb (if env.isIp host then host else ((env.dns host).getD host)) = none →
      ((get_country_and_isp env cache host).1).1 = "") ∧
    (env.asnDb (if env.isIp host then host else ((env.dns host).getD host)) = none →
      ((get_country_and_isp env cache host).1).2 = "") ∧
    (env.countryDb (if env.isIp host then host else ((env.dns host).getD host)) = none →
      env.asnDb (if env.isIp host then host else ((env.dns host).getD host)) = none →
      (get_country_and_isp env cache host).1 = ("", "")) := by
  unfold get_country_and_isp
  rw [hmiss]
  dsimp only
  refine ⟨?_, ?_, ?_⟩
  · intro hc
    rw [hc]
  · intro ha
    rw [ha]
    rfl
  · intro hc ha
    rw [hc, ha]
    rfl

/-! ## A model of `json.dumps` / `json.loads` on flat objects of strings and
naturals — the exact shape of the `vmess_meta` payload.  Escape sequences are
not modelled: every string handled here is restricted to `jsonSafeChar`
characters (printable ASCII without `"` or `\`), for which `json.dumps`
performs no escaping and `json.loads` no unescaping. -/

inductive JVal where
  | str : String → JVal
  | num : Nat → JVal
deriving DecidableEq, Repr

/-- Printable ASCII, no quote, no backslash: characters that `json.dumps`
emits verbatim inside a string literal. -/
def jsonSafeChar (c : Char) : Bool :=
  32 ≤ c.toNat && c.toNat < 127 && c ≠ '"' && c ≠ '\\'

def dumpJVal : JVal → List Char
  | .str s => '"' :: (s.data ++ ['"'])
  | .num n => natDigits n

/-- The pair list of `json.dumps` with the default `", "` / `": "` separators. -/
def dumpPairs : List (String × JVal) → List Char
  | [] => []
  | [(k, v)] => '"' :: (k.data ++ '"' :: ':' :: ' ' :: dumpJVal v)
  | (k, v) :: p :: rest =>
    '"' :: (k.data ++ '"' :: ':' :: ' ' :: (dumpJVal v ++ ',' :: ' ' :: dumpPairs (p :: rest)))

def jsonDumps (o : List (String × JVal)) : List Char :=
  if o = [] then ['{', '}'] else '{' :: (dumpPairs o ++ ['}'])

/-- JSON insignificant whitespace. -/
def isJsonWs (c : Char) : Bool := c = ' ' || c = '\t' || c = '\n' || c = '\r'

def skipWs (l : List Char) : List Char := l.dropWhile isJsonWs

def parseJStringGo : List Char → List Char → Option (String × List Char)
  | [], _ => none
  | c :: rest, acc =>
    if c = '"' then some ((⟨acc.reverse⟩ : String), rest) else parseJStringGo rest (c :: acc)

def parseJString : List Char → Option (String × List Char)
  | [] => none
  | c :: rest => if c = '"' then parseJStringGo rest [] else none

def parseJNat (l : List Char) : Option (Nat × List Char) :=
  let ds := l.takeWhile isDigitChar
  if ds = [] then none else some (digitsVal ds, l.dropWhile isDigitChar)

def parseJVal (l : List Char) : Option (JVal × List Char) :=
  match parseJString (skipWs l) with
  | some (s, r) => some (.str s, r)
  | none =>
    match parseJNat (skipWs l) with
    | some (n, r) => some (.num n, r)
    | none => none

def parsePairs : Nat → List Char → Option (List (String × JVal) × List Char)
  | 0, _ => none
  | fuel + 1, l =>
    match parseJString (skipWs l) with
    | none => none
    | some (k, r1) =>
      let s1 := skipWs r1
      if s1.head? = some ':' then
        match parseJVal s1.tail with
        | none => none
        | some (v, r3) =>
          let s3 := skipWs r3
          if s3.head? = some ',' then
            match parsePairs fuel s3.tail with
            | some (ps, r5) => some ((k, v) :: ps, r5)
            | none => none
          else if s3.head? = some '}' then some ([(k, v)], s3.tail)
          else none
      else none

/-- `json.loads` on flat objects (the only payload shape in scope). -/
def jsonLoads (l : List Char) : Option (List (String × JVal)) :=
  let s := skipWs l
  if s.head? = some '{' then
    let rest := s.tail
    let s2 := skipWs rest
    if s2.head? = some '}' then
      if skipWs s2.tail = [] then some [] else none
    else
      match parsePairs (rest.length + 1) rest with
      | some (ps, r2) => if skipWs r2 = [] then some ps else none
      | none => none
  else none

theorem skipWs_cons_id {c : Char} (l : List Char) (h : isJsonWs c = false) :
    skipWs (c :: l) = c :: l := by
  unfold skipWs
  rw [List.dropWhile_cons, h]
  simp

theorem skipWs_space (l : List Char) : skipWs (' ' :: l) = skipWs l := by
  unfold skipWs
  rw [List.dropWhile_cons]
  simp [isJsonWs]

theorem parseJStringGo_closed (s : List Char) (hs : '"' ∉ s) :
    ∀ acc rest, parseJStringGo (s ++ '"' :: rest) acc =
      some ((⟨acc.reverse ++ s⟩ : String), rest) := by
  induction s with
  | nil =>
    intro acc rest
    simp [parseJStringGo]
  | cons c cs ih =>
    intro acc rest
    have hc : c ≠ '"' := by rintro rfl; exact hs (by simp)
    rw [List.cons_append, parseJStringGo, if_neg hc]
    rw [ih (fun hm => hs (by simp [hm])) (c :: acc) rest]
    simp

theorem parseJString_print (s : String) (hs : '"' ∉ s.data) (rest : List Char) :
    parseJString ('"' :: (s.data ++ '"' :: rest)) = some (s, rest) := by
  rw [parseJString, if_pos rfl]
  rw [parseJStringGo_closed s.data hs [] rest]
  rfl

theorem parseJString_no_quote (l : List Char) (h : l.head? ≠ some '"') :
    parseJString l = none := by
  cases l with
  | nil => rfl
  | cons c rest =>
    have hc : c ≠ '"' := fun he => h (by subst he; rfl)
    rw [parseJString, if_neg hc]

theorem parseJNat_print (n : Nat) (rest : List Char)
    (h : ∀ c, rest.head? = some c → isDigitChar c = false) :
    parseJNat (natDigits n ++ rest) = some (n, rest) := by
  have htake : rest.takeWhile isDigitChar = [] := by
    cases rest with
    | nil => rfl
    | cons c r => rw [List.takeWhile_cons, h c rfl]; simp
  have hdrop : rest.dropWhile isDigitChar = rest := by
    cases rest with
    | nil => rfl
    | cons c r => rw [List.dropWhile_cons, h c rfl]; simp
  unfold parseJNat
  rw [takeWhile_append_all _ _ _ (natDigits_all_digits n), htake,
    dropWhile_append_all _ _ _ (natDigits_all_digits n), hdrop]
  rw [if_neg (by simp [natDigits_ne_nil n])]
  simp only [List.append_nil]
  rw [digitsVal_natDigits]

theorem parseJVal_print_str (s : String) (hs : '"' ∉ s.data) (rest : List Char) :
    parseJVal (' ' :: ('"' :: (s.data ++ '"' :: rest))) = some (.str s, rest) := by
  unfold parseJVal
  rw [skipWs_space, skipWs_cons_id _ (by decide), parseJString_print s hs rest]

theorem parseJVal_print_num (n : Nat) (rest : List Char)
    (h : ∀ c, rest.head? = some c → isDigitChar c = false) :
    parseJVal (' ' :: (natDigits n ++ rest)) = some (.num n, rest) := by
  have hne := natDigits_ne_nil n
  unfold parseJVal
  rw [skipWs_space]
  cases hd : natDigits n with
  | nil => exact absurd hd hne
  | cons d ds =>
    have hdd : isDigitChar d = true := natDigits_all_digits n d (by rw [hd]; simp)
    have hdw : isJsonWs d = false := by
      rcases digit_toNat_bounds hdd with ⟨h1, h2⟩
      by_contra hws
      have hws' : isJsonWs d = true := by revert hws; cases isJsonWs d <;> simp
      simp only [isJsonWs, Bool.or_eq_true, decide_eq_true_eq] at hws'
      rcases hws' with ((rfl | rfl) | rfl) | rfl <;> simp_all
    rw [List.cons_append, skipWs_cons_id _ hdw]
    rw [parseJString_no_quote _ (by
      intro he
      simp only [List.head?, Option.some.injEq] at he
      rw [he] at hdd
      exact absurd hdd (by decide))]
    dsimp only
    have hback : d :: (ds ++ rest) = natDigits n ++ rest := by rw [hd, List.cons_append]
    rw [hback, parseJNat_print n rest h]

theorem parseJVal_print (v : JVal) (hv : ∀ s, v = .str s → '"' ∉ s.data) (tail : List Char)
    (htail : ∀ c, tail.head? = some c → isDigitChar c = false) :
    parseJVal (' ' :: (dumpJVal v ++ tail)) = some (v, tail) := by
  cases v with
  | str s =>
    have hs := hv s rfl
    show parseJVal (' ' :: (('"' :: (s.data ++ ['"'])) ++ tail)) = _
    have hshape : ('"' :: (s.data ++ ['"'])) ++ tail = '"' :: (s.data ++ '"' :: tail) := by
      simp [List.append_assoc]
    rw [hshape, parseJVal_print_str s hs tail]
  | num n => exact parseJVal_print_num n tail htail

theorem parsePairs_skip_space (fuel : Nat) (l : List Char) :
    parsePairs (fuel + 1) (' ' :: l) = parsePairs (fuel + 1) l := by
  conv_lhs => rw [parsePairs]
  conv_rhs => rw [parsePairs]
  rw [skipWs_space]

theorem parsePairs_print :
    ∀ o : List (String × JVal), o ≠ [] →
      (∀ p ∈ o, '"' ∉ (p.1 : String).data ∧ ∀ s, p.2 = .str s → '"' ∉ s.data) →
      ∀ rest fuel, o.length ≤ fuel →
        parsePairs fuel (dumpPairs o ++ '}' :: rest) = some (o, rest)
  | [], hne, _, _, _, _ => absurd rfl hne
  | [(k, v)], _, hsafe, rest, fuel, hf => by
    obtain ⟨hk, hv⟩ := hsafe (k, v) (by simp)
    cases fuel with
    | zero => simp at hf
    | succ f =>
      rw [parsePairs]
      have hshape : dumpPairs [(k, v)] ++ '}' :: rest =
          '"' :: (k.data ++ '"' :: (':' :: ' ' :: (dumpJVal v ++ '}' :: rest))) := by
        simp [dumpPairs, List.append_assoc]
      rw [hshape, skipWs_cons_id _ (by decide), parseJString_print k hk]
      dsimp only
      rw [skipWs_cons_id _ (by decide)]
      simp only [List.head?_cons, List.tail_cons, Option.some.injEq, reduceIte]
      rw [parseJVal_print v hv ('}' :: rest) (by
        intro c hc
        simp only [List.head?, Option.some.injEq] at hc
        rw [← hc]
        decide)]
      dsimp only
      rw [skipWs_cons_id _ (by decide)]
      simp only [List.head?_cons, List.tail_cons, Option.some.injEq, reduceIte]
      rw [if_neg (by decide)]
  | (k, v) :: p :: rest', _, hsafe, rest, fuel, hf => by
    obtain ⟨hk, hv⟩ := hsafe (k, v) (by simp)
    cases fuel with
    | zero => simp at hf
    | succ f =>
      rw [parsePairs]
      have hshape : dumpPairs ((k, v) :: p :: rest') ++ '}' :: rest =
          '"' :: (k.data ++ '"' :: (':' :: ' ' ::
            (dumpJVal v ++ ',' :: ' ' :: (dumpPairs (p :: rest') ++ '}' :: rest)))) := by
        simp [dumpPairs, List.append_assoc]
      rw [hshape, skipWs_cons_id _ (by decide), parseJString_print k hk]
      dsimp only
      rw [skipWs_cons_id _ (by decide)]
      simp only [List.head?_cons, List.tail_cons, Option.some.injEq, reduceIte]
      rw [parseJVal_print v hv (',' :: ' ' :: (dumpPairs (p :: rest') ++ '}' :: rest)) (by
        intro c hc
        simp only [List.head?, Option.some.injEq] at hc
        rw [← hc]
        decide)]
      dsimp only
      rw [skipWs_cons_id _ (by decide)]
      simp only [List.head?_cons, List.tail_cons, Option.some.injEq, reduceIte]
      cases f with
      | zero =>
        exfalso
        simp at hf
      | succ f' =>
        rw [parsePairs_skip_space f' (dumpPairs (p :: rest') ++ '}' :: rest)]
        rw [parsePairs_print (p :: rest') (by simp)
          (fun q hq => hsafe q (by simp [hq])) rest (f' + 1) (by simp at hf ⊢; omega)]

theorem dumpPairs_head : ∀ o : List (String × JVal), o ≠ [] → ∃ t, dumpPairs o = '"' :: t
  | [], hne => absurd rfl hne
  | [(k, v)], _ => ⟨_, rfl⟩
  | (k, v) :: p :: rest, _ => ⟨_, rfl⟩

theorem dumpPairs_length : ∀ o : List (String × JVal), o.length ≤ (dumpPairs o).length
  | [] => by simp [dumpPairs]
  | [(k, v)] => by simp [dumpPairs]
  | (k, v) :: p :: rest => by
    have ih := dumpPairs_length (p :: rest)
    simp only [dumpPairs, List.length_cons, List.length_append]
    simp only [List.length_cons] at ih
    omega

theorem jsonLoads_print (o : List (String × JVal)) (hne : o ≠ [])
    (hsafe : ∀ p ∈ o, '"' ∉ (p.1 : String).data ∧ ∀ s, p.2 = .str s → '"' ∉ s.data) :
    jsonLoads (jsonDumps o) = some o := by
  unfold jsonDumps
  rw [if_neg hne]
  unfold jsonLoads
  rw [skipWs_cons_id _ (by decide)]
  simp only [List.head?_cons, List.tail_cons, Option.some.injEq, reduceIte]
  obtain ⟨t, ht⟩ := dumpPairs_head o hne
  have hskip2 : skipWs (dumpPairs o ++ ['}']) = dumpPairs o ++ ['}'] := by
    rw [ht]
    exact skipWs_cons_id _ (by decide)
  have hhead : (skipWs (dumpPairs o ++ ['}'])).head? = some '"' := by
    rw [hskip2, ht]
    rfl
  rw [hhead]
  simp only [Option.some.injEq, reduceIte]
  rw [show (dumpPairs o ++ ['}'] : List Char) = dumpPairs o ++ '}' :: [] from rfl]
  rw [parsePairs_print o hne hsafe [] ((dumpPairs o ++ ['}']).length + 1) (by
    simp only [List.length_append]
    have := dumpPairs_length o
    omega)]
  rfl

/-! ## `decode_vmess`, `parse_any`, and the vmess writer of `main.py` -/

/-- `ConfigToSingbox.decode_vmess`: strip `vmess://`, base64-decode, decode as
text, `json.loads`. -/
def decode_vmess (config : String) : Option (List (String × JVal)) :=
  let encoded := pyReplace "vmess://".data [] config.data
  match b64decode encoded with
  | none => none
  | some bytes =>
    match asciiDecode bytes with
    | none => none
    | some chars => jsonLoads chars

def jGet (vm : List (String × JVal)) (k : String) : Option JVal := alist vm k

/-- `vm.get(k)` for a key whose value (when produced by any writer in scope) is
a string; a numeric value is treated like an absent key. -/
def jGetStr (vm : List (String × JVal)) (k : String) : Option String :=
  match jGet vm k with
  | some (.str s) => some s
  | _ => none

/-- `vm.get(k, d)` under the same string-valued convention. -/
def jGetStrD (vm : List (String × JVal)) (k : String) (d : String) : String :=
  match jGet vm k with
  | some (.str s) => s
  | _ => d

/-- `int(vm.get('port', 0)) if vm.get('port') else 0`.  A numeric port is
returned as is (`0` is falsy, but then the result is `0` anyway); a non-empty,
non-numeric string raises `ValueError` (`none`). -/
def vmessPort (vm : List (String × JVal)) : Option Nat :=
  match jGet vm "port" with
  | none => some 0
  | some (.num n) => some n
  | some (.str s) => if s = "" then some 0 else parseIntPy s.data

/-- `ConfigToSingbox.parse_any`. -/
def parse_any (raw : String) : Option ParsedConfig :=
  let r := pyStrip raw.data
  if r = [] then none
  else
    let lower := r.map lowerChar
    if isPref "vmess://".data lower then
      match decode_vmess ⟨r⟩ with
      | none => none
      | some vm =>
        if vm = [] then none
        else
          match vmessPort vm with
          | none => none
          | some port =>
            some { proto := "vmess", address := jGetStr vm "add", port := port,
                   id := jGetStr vm "id", net := some (jGetStrD vm "net" "tcp"),
                   path := some (jGetStrD vm "path" ""), host := some (jGetStrD vm "host" ""),
                   tls := some (jGetStrD vm "tls" "") }
    else if isPref "vless://".data lower then parse_vless ⟨r⟩
    else if isPref "trojan://".data lower then parse_trojan ⟨r⟩
    else if isPref "hysteria2://".data lower ∨ isPref "hy2://".data lower then
      parse_hysteria2 ⟨r⟩
    else if isPref "ss://".data lower then parse_shadowsocks ⟨r⟩
    else none

/-- The `vmess_meta` dict assembled by the vmess branch of
`write_proxy_urls_file` (`v` is always `"2"` and `alpn` always `""`). -/
structure VmessMeta where
  ps : String
  add : String
  port : Nat
  id : String
  aid : Nat
  net : String
  type : String
  host : String
  path : String
  tls : String
  sni : String
deriving DecidableEq, Repr

def vmessMetaPairs (m : VmessMeta) : List (String × JVal) :=
  [("v", .str "2"), ("ps", .str m.ps), ("add", .str m.add), ("port", .num m.port),
   ("id", .str m.id), ("aid", .num m.aid), ("net", .str m.net), ("type", .str m.type),
   ("host", .str m.host), ("path", .str m.path), ("tls", .str m.tls), ("sni", .str m.sni),
   ("alpn", .str "")]

/-- The vmess branch of `write_proxy_urls_file`:
`"vmess://" + b64encode(json.dumps(vmess_meta).encode()).decode()`. -/
def write_vmess_url (m : VmessMeta) : String :=
  "vmess://" ++ (⟨b64encode ((jsonDumps (vmessMetaPairs m)).map Char.toNat)⟩ : String)

theorem jsonSafe_no_quote {s : String} (hs : ∀ c ∈ s.data, jsonSafeChar c = true) :
    '"' ∉ s.data := by
  intro hm
  exact absurd (hs '"' hm) (by decide)

theorem jsonSafe_lt128 {s : String} (hs : ∀ c ∈ s.data, jsonSafeChar c = true) :
    ∀ c ∈ s.data, c.toNat < 128 := by
  intro c hc
  have := hs c hc
  simp only [jsonSafeChar, Bool.and_eq_true, decide_eq_true_eq] at this
  omega

theorem charSextet_isSome_not_ws {c : Char} (h : (charSextet c).isSome = true) :
    isWsChar c = false := by
  by_contra hw
  have hw' : isWsChar c = true := by revert hw; cases isWsChar c <;> simp
  simp only [isWsChar, Bool.or_eq_true, decide_eq_true_eq] at hw'
  rcases hw' with ((((rfl | rfl) | rfl) | rfl) | rfl) | rfl <;>
    exact absurd h (by decide)

theorem b64_not_ws (bs : List Nat) (hb : ∀ x ∈ bs, x < 256) :
    ∀ c ∈ b64encode bs, isWsChar c = false := by
  intro c hc
  rcases b64encode_chars bs hb c hc with hs | rfl
  · exact charSextet_isSome_not_ws hs
  · decide

theorem dumpJVal_lt128 (v : JVal) (hv : ∀ s, v = .str s → ∀ c ∈ s.data, c.toNat < 128) :
    ∀ c ∈ dumpJVal v, c.toNat < 128 := by
  cases v with
  | str s =>
    intro c hc
    rcases List.mem_cons.mp hc with rfl | hc
    · decide
    rcases List.mem_append.mp hc with hc | hc
    · exact hv s rfl c hc
    · rcases List.mem_singleton.mp hc with rfl
      decide
  | num n =>
    intro c hc
    have := digit_toNat_bounds (natDigits_all_digits n c hc)
    omega

theorem dumpPairs_lt128 :
    ∀ o : List (String × JVal),
      (∀ p ∈ o, (∀ c ∈ (p.1 : String).data, c.toNat < 128) ∧
        (∀ s, p.2 = .str s → ∀ c ∈ s.data, c.toNat < 128)) →
      ∀ c ∈ dumpPairs o, c.toNat < 128
  | [], _ => by simp [dumpPairs]
  | [(k, v)], h => by
    obtain ⟨hk, hv⟩ := h (k, v) (by simp)
    intro c hc
    rcases List.mem_cons.mp hc with rfl | hc
    · decide
    rcases List.mem_append.mp hc with hc | hc
    · exact hk c hc
    rcases List.mem_cons.mp hc with rfl | hc
    · decide
    rcases List.mem_cons.mp hc with rfl | hc
    · decide
    rcases List.mem_cons.mp hc with rfl | hc
    · decide
    exact dumpJVal_lt128 v hv c hc
  | (k, v) :: p :: rest, h => by
    obtain ⟨hk, hv⟩ := h (k, v) (by simp)
    intro c hc
    rcases List.mem_cons.mp hc with rfl | hc
    · decide
    rcases List.mem_append.mp hc with hc | hc
    · exact hk c hc
    rcases List.mem_cons.mp hc with rfl | hc
    · decide
    rcases List.mem_cons.mp hc with rfl | hc
    · decide
    rcases List.mem_cons.mp hc with rfl | hc
    · decide
    rcases List.mem_append.mp hc with hc | hc
    · exact dumpJVal_lt128 v hv c hc
    rcases List.mem_cons.mp hc with rfl | hc
    · decide
    rcases List.mem_cons.mp hc with rfl | hc
    · decide
    exact dumpPairs_lt128 (p :: rest) (fun q hq => h q (by simp [hq])) c hc

theorem jsonDumps_lt128 (o : List (String × JVal))
    (h : ∀ p ∈ o, (∀ c ∈ (p.1 : String).data, c.toNat < 128) ∧
      (∀ s, p.2 = .str s → ∀ c ∈ s.data, c.toNat < 128)) :
    ∀ c ∈ jsonDumps o, c.toNat < 128 := by
  unfold jsonDumps
  split
  · intro c hc
    rcases List.mem_cons.mp hc with rfl | hc
    · decide
    · rcases List.mem_singleton.mp hc with rfl
      decide
  · intro c hc
    rcases List.mem_cons.mp hc with rfl | hc
    · decide
    · rcases List.mem_append.mp hc with hc | hc
      · exact dumpPairs_lt128 o h c hc
      · rcases List.mem_singleton.mp hc with rfl
        decide

theorem vmess_pairs_no_quote (m : VmessMeta)
    (hps : ∀ c ∈ m.ps.data, jsonSafeChar c = true)
    (hadd : ∀ c ∈ m.add.data, jsonSafeChar c = true)
    (hid : ∀ c ∈ m.id.data, jsonSafeChar c = true)
    (hnet : ∀ c ∈ m.net.data, jsonSafeChar c = true)
    (hty : ∀ c ∈ m.type.data, jsonSafeChar c = true)
    (hhost : ∀ c ∈ m.host.data, jsonSafeChar c = true)
    (hpath : ∀ c ∈ m.path.data, jsonSafeChar c = true)
    (htls : ∀ c ∈ m.tls.data, jsonSafeChar c = true)
    (hsni : ∀ c ∈ m.sni.data, jsonSafeChar c = true) :
    ∀ p ∈ vmessMetaPairs m, '"' ∉ (p.1 : String).data ∧
      ∀ s, p.2 = .str s → '"' ∉ s.data := by
  intro p hp
  simp only [vmessMetaPairs, List.mem_cons, List.mem_singleton] at hp
  rcases hp with rfl | rfl | rfl | rfl | rfl | rfl | rfl | rfl | rfl | rfl | rfl | rfl | rfl | hp
  · exact ⟨show '"' ∉ ("v" : String).data by decide, fun s hs => by injection hs with h; subst h; decide⟩
  · exact ⟨show '"' ∉ ("ps" : String).data by decide, fun s hs => by injection hs with h; subst h; exact jsonSafe_no_quote hps⟩
  · exact ⟨show '"' ∉ ("add" : String).data by decide, fun s hs => by injection hs with h; subst h; exact jsonSafe_no_quote hadd⟩
  · exact ⟨show '"' ∉ ("port" : String).data by decide, fun s hs => by cases hs⟩
  · exact ⟨show '"' ∉ ("id" : String).data by decide, fun s hs => by injection hs with h; subst h; exact jsonSafe_no_quote hid⟩
  · exact ⟨show '"' ∉ ("aid" : String).data by decide, fun s hs => by cases hs⟩
  · exact ⟨show '"' ∉ ("net" : String).data by decide, fun s hs => by injection hs with h; subst h; exact jsonSafe_no_quote hnet⟩
  · exact ⟨show '"' ∉ ("type" : String).data by decide, fun s hs => by injection hs with h; subst h; exact jsonSafe_no_quote hty⟩
  · exact ⟨show '"' ∉ ("host" : String).data by decide, fun s hs => by injection hs with h; subst h; exact jsonSafe_no_quote hhost⟩
  · exact ⟨show '"' ∉ ("path" : String).data by decide, fun s hs => by injection hs with h; subst h; exact jsonSafe_no_quote hpath⟩
  · exact ⟨show '"' ∉ ("tls" : String).data by decide, fun s hs => by injection hs with h; subst h; exact jsonSafe_no_quote htls⟩
  · exact ⟨show '"' ∉ ("sni" : String).data by decide, fun s hs => by injection hs with h; subst h; exact jsonSafe_no_quote hsni⟩
  · exact ⟨show '"' ∉ ("alpn" : String).data by decide, fun s hs => by injection hs with h; subst h; decide⟩
  · exact absurd hp (List.not_mem_nil p)

theorem vmess_pairs_lt128 (m : VmessMeta)
    (hps : ∀ c ∈ m.ps.data, jsonSafeChar c = true)
    (hadd : ∀ c ∈ m.add.data, jsonSafeChar c = true)
    (hid : ∀ c ∈ m.id.data, jsonSafeChar c = true)
    (hnet : ∀ c ∈ m.net.data, jsonSafeChar c = true)
    (hty : ∀ c ∈ m.type.data, jsonSafeChar c = true)
    (hhost : ∀ c ∈ m.host.data, jsonSafeChar c = true)
    (hpath : ∀ c ∈ m.path.data, jsonSafeChar c = true)
    (htls : ∀ c ∈ m.tls.data, jsonSafeChar c = true)
    (hsni : ∀ c ∈ m.sni.data, jsonSafeChar c = true) :
    ∀ p ∈ vmessMetaPairs m, (∀ c ∈ (p.1 : String).data, c.toNat < 128) ∧
      ∀ s, p.2 = .str s → ∀ c ∈ s.data, c.toNat < 128 := by
  intro p hp
  simp only [vmessMetaPairs, List.mem_cons, List.mem_singleton] at hp
  rcases hp with rfl | rfl | rfl | rfl | rfl | rfl | rfl | rfl | rfl | rfl | rfl | rfl | rfl | hp
  · exact ⟨show ∀ c ∈ ("v" : String).data, c.toNat < 128 by decide, fun s hs => by injection hs with h; subst h; decide⟩
  · exact ⟨show ∀ c ∈ ("ps" : String).data, c.toNat < 128 by decide, fun s hs => by injection hs with h; subst h; exact jsonSafe_lt128 hps⟩
  · exact ⟨show ∀ c ∈ ("add" : String).data, c.toNat < 128 by decide, fun s hs => by injection hs with h; subst h; exact jsonSafe_lt128 hadd⟩
  · exact ⟨show ∀ c ∈ ("port" : String).data, c.toNat < 128 by decide, fun s hs => by cases hs⟩
  · exact ⟨show ∀ c ∈ ("id" : String).data, c.toNat < 128 by decide, fun s hs => by injection hs with h; subst h; exact jsonSafe_lt128 hid⟩
  · exact ⟨show ∀ c ∈ ("aid" : String).data, c.toNat < 128 by decide, fun s hs => by cases hs⟩
  · exact ⟨show ∀ c ∈ ("net" : String).data, c.toNat < 128 by decide, fun s hs => by injection hs with h; subst h; exact jsonSafe_lt128 hnet⟩
  · exact ⟨show ∀ c ∈ ("type" : String).data, c.toNat < 128 by decide, fun s hs => by injection hs with h; subst h; exact jsonSafe_lt128 hty⟩
  · exact ⟨show ∀ c ∈ ("host" : String).data, c.toNat < 128 by decide, fun s hs => by injection hs with h; subst h; exact jsonSafe_lt128 hhost⟩
  · exact ⟨show ∀ c ∈ ("path" : String).data, c.toNat < 128 by decide, fun s hs => by injection hs with h; subst h; exact jsonSafe_lt128 hpath⟩
  · exact ⟨show ∀ c ∈ ("tls" : String).data, c.toNat < 128 by decide, fun s hs => by injection hs with h; subst h; exact jsonSafe_lt128 htls⟩
  · exact ⟨show ∀ c ∈ ("sni" : String).data, c.toNat < 128 by decide, fun s hs => by injection hs with h; subst h; exact jsonSafe_lt128 hsni⟩
  · exact ⟨show ∀ c ∈ ("alpn" : String).data, c.toNat < 128 by decide, fun s hs => by injection hs with h; subst h; decide⟩
  · exact absurd hp (List.not_mem_nil p)

theorem decode_vmess_write (m : VmessMeta)
    (hlt : ∀ c ∈ jsonDumps (vmessMetaPairs m), c.toNat < 128)
    (hsafe : ∀ p ∈ vmessMetaPairs m, '"' ∉ (p.1 : String).data ∧
      ∀ s, p.2 = .str s → '"' ∉ s.data) :
    decode_vmess ⟨"vmess://".data ++
        b64encode ((jsonDumps (vmessMetaPairs m)).map Char.toNat)⟩ =
      some (vmessMetaPairs m) := by
  have hbytes : ∀ x ∈ (jsonDumps (vmessMetaPairs m)).map Char.toNat, x < 256 := by
    intro x hx
    rcases List.mem_map.mp hx with ⟨c, hc, rfl⟩
    have := hlt c hc
    omega
  have hnocolon : ∀ c ∈ b64encode ((jsonDumps (vmessMetaPairs m)).map Char.toNat),
      c ≠ ':' := by
    intro c hc hceq
    subst hceq
    exact not_mem_b64encode (by decide) (by decide) _ hbytes hc
  have hcs : containsSeq "vmess://".data
      (b64encode ((jsonDumps (vmessMetaPairs m)).map Char.toNat)) = false := by
    rw [show ("vmess://".data : List Char) = "vmess".data ++ ':' :: '/' :: ['/'] from rfl]
    exact containsSeq_colonSlash_false _ _ _ (colonSlash_none hnocolon)
  have hrepl : pyReplace "vmess://".data []
      ("vmess://".data ++ b64encode ((jsonDumps (vmessMetaPairs m)).map Char.toNat)) =
      b64encode ((jsonDumps (vmessMetaPairs m)).map Char.toNat) := by
    rw [show ("vmess://".data : List Char) = 'v' :: "mess://".data from rfl]
    exact pyReplace_strip_head 'v' "mess://".data _ hcs
  unfold decode_vmess
  dsimp only
  rw [hrepl, b64_roundtrip _ hbytes]
  dsimp only
  rw [asciiDecode_map _ hlt]
  dsimp only
  exact jsonLoads_print _ (by simp [vmessMetaPairs]) hsafe

theorem parse_any_vmess (tail : List Char) (vm : List (String × JVal)) (port : Nat)
    (hnws : ∀ c ∈ tail, isWsChar c = false)
    (hdec : decode_vmess ⟨"vmess://".data ++ tail⟩ = some vm)
    (hvm : vm ≠ []) (hport : vmessPort vm = some port) :
    parse_any ⟨"vmess://".data ++ tail⟩ =
      some { proto := "vmess", address := jGetStr vm "add", port := port,
             id := jGetStr vm "id", net := some (jGetStrD vm "net" "tcp"),
             path := some (jGetStrD vm "path" ""), host := some (jGetStrD vm "host" ""),
             tls := some (jGetStrD vm "tls" "") } := by
  have hall : ∀ c ∈ ("vmess://".data ++ tail : List Char), isWsChar c = false := by
    intro c hc
    rcases List.mem_append.mp hc with hc | hc
    · exact (show ∀ c ∈ ("vmess://" : String).data, isWsChar c = false by decide) c hc
    · exact hnws c hc
  unfold parse_any
  dsimp only
  rw [pyStrip_id _ hall]
  rw [if_neg (by
    rw [show ("vmess://".data : List Char) = 'v' :: "mess://".data from rfl,
      List.cons_append]
    exact List.cons_ne_nil _ _)]
  rw [List.map_append,
    show (("vmess://" : String).data.map lowerChar) = "vmess://".data from by decide]
  rw [if_pos (isPref_self_append _ _)]
  rw [hdec]
  dsimp only
  rw [if_neg hvm, hport]

theorem vmess_roundtrip (m : VmessMeta)
    (hps : ∀ c ∈ m.ps.data, jsonSafeChar c = true)
    (hadd : ∀ c ∈ m.add.data, jsonSafeChar c = true)
    (hid : ∀ c ∈ m.id.data, jsonSafeChar c = true)
    (hnet : ∀ c ∈ m.net.data, jsonSafeChar c = true)
    (hty : ∀ c ∈ m.type.data, jsonSafeChar c = true)
    (hhost : ∀ c ∈ m.host.data, jsonSafeChar c = true)
    (hpath : ∀ c ∈ m.path.data, jsonSafeChar c = true)
    (htls : ∀ c ∈ m.tls.data, jsonSafeChar c = true)
    (hsni : ∀ c ∈ m.sni.data, jsonSafeChar c = true) :
    parse_any (write_vmess_url m) =
      some { proto := "vmess", address := some m.add, port := m.port,
             id := some m.id, net := some m.net, path := some m.path,
             host := some m.host, tls := some m.tls } := by
  have hsafe := vmess_pairs_no_quote m hps hadd hid hnet hty hhost hpath htls hsni
  have hlt : ∀ c ∈ jsonDumps (vmessMetaPairs m), c.toNat < 128 :=
    jsonDumps_lt128 _ (vmess_pairs_lt128 m hps hadd hid hnet hty hhost hpath htls hsni)
  have hbytes : ∀ x ∈ (jsonDumps (vmessMetaPairs m)).map Char.toNat, x < 256 := by
    intro x hx
    rcases List.mem_map.mp hx with ⟨c, hc, rfl⟩
    have := hlt c hc
    omega
  have hport : vmessPort (vmessMetaPairs m) = some m.port := by
    simp [vmessPort, jGet, alist, vmessMetaPairs]
  have hla : jGetStr (vmessMetaPairs m) "add" = some m.add := by
    simp [jGetStr, jGet, alist, vmessMetaPairs]
  have hli : jGetStr (vmessMetaPairs m) "id" = some m.id := by
    simp [jGetStr, jGet, alist, vmessMetaPairs]
  have hln : jGetStrD (vmessMetaPairs m) "net" "tcp" = m.net := by
    simp [jGetStrD, jGet, alist, vmessMetaPairs]
  have hlp : jGetStrD (vmessMetaPairs m) "path" "" = m.path := by
    simp [jGetStrD, jGet, alist, vmessMetaPairs]
  have hlh : jGetStrD (vmessMetaPairs m) "host" "" = m.host := by
    simp [jGetStrD, jGet, alist, vmessMetaPairs]
  have hlt2 : jGetStrD (vmessMetaPairs m) "tls" "" = m.tls := by
    simp [jGetStrD, jGet, alist, vmessMetaPairs]
  rw [show write_vmess_url m =
    (⟨"vmess://".data ++ b64encode ((jsonDumps (vmessMetaPairs m)).map Char.toNat)⟩ : String)
    from rfl]
  rw [parse_any_vmess _ (vmessMetaPairs m) m.port (b64_not_ws _ hbytes)
    (decode_vmess_write m hlt hsafe) (by simp [vmessMetaPairs]) hport]
  rw [hla, hli, hln, hlp, hlh, hlt2]

/-! ## Concrete evaluations used by the claim theorems -/

theorem pyReplace_delete (ch : Char) (l : List Char) :
    pyReplace [ch] [] l = l.filter (fun x => x != ch) := by
  induction l with
  | nil => rw [pyReplace_nil]; rfl
  | cons c cs ih =>
    rw [pyReplace_cons]
    by_cases hc : c = ch
    · subst hc
      rw [if_pos (by simp [isPref])]
      simp only [List.length_cons, List.length_nil, Nat.sub_self, List.drop_zero,
        List.nil_append]
      rw [ih]
      simp
    · rw [if_neg (by simp [isPref]; intro he; exact absurd he.symm hc)]
      rw [ih]
      simp [hc]

theorem pySplitWs_nil : pySplitWs [] = [] := by
  rw [pySplitWs.eq_def]

theorem pySplitWs_cons (c : Char) (cs : List Char) :
    pySplitWs (c :: cs) =
      if isWsChar c then pySplitWs cs
      else (c :: cs.takeWhile (fun x => !isWsChar x)) ::
        pySplitWs (cs.dropWhile (fun x => !isWsChar x)) := by
  rw [pySplitWs.eq_def]

theorem pySplitWs_acme : pySplitWs "Acme Cloud Inc".data = ["Acme".data, "Cloud".data, "Inc".data] := by
  rw [show ("Acme Cloud Inc" : String).data =
    'A' :: "cme Cloud Inc".data from rfl, pySplitWs_cons]
  rw [if_neg (by decide)]
  rw [show ("cme Cloud Inc" : String).data.takeWhile (fun x => !isWsChar x) = "cme".data from by decide]
  rw [show ("cme Cloud Inc" : String).data.dropWhile (fun x => !isWsChar x) = ' ' :: "Cloud Inc".data from by decide]
  rw [pySplitWs_cons, if_pos (by decide)]
  rw [show ("Cloud Inc" : String).data = 'C' :: "loud Inc".data from rfl, pySplitWs_cons]
  rw [if_neg (by decide)]
  rw [show ("loud Inc" : String).data.takeWhile (fun x => !isWsChar x) = "loud".data from by decide]
  rw [show ("loud Inc" : String).data.dropWhile (fun x => !isWsChar x) = ' ' :: "Inc".data from by decide]
  rw [pySplitWs_cons, if_pos (by decide)]
  rw [show ("Inc" : String).data = 'I' :: "nc".data from rfl, pySplitWs_cons]
  rw [if_neg (by decide)]
  rw [show ("nc" : String).data.takeWhile (fun x => !isWsChar x) = "nc".data from by decide]
  rw [show ("nc" : String).data.dropWhile (fun x => !isWsChar x) = ([] : List Char) from by decide]
  rw [pySplitWs_nil]

theorem cleanIsp_acme : cleanIspName "Acme Cloud, Inc." = "Acme" := by
  unfold cleanIspName
  rw [if_neg (by decide)]
  dsimp only
  rw [pyReplace_delete, pyReplace_delete]
  rw [show ((("Acme Cloud, Inc." : String).data.filter (fun x => x != '.')).filter
      (fun x => x != ',')) = "Acme Cloud Inc".data from by decide]
  rw [show pyStrip "Acme Cloud Inc".data = "Acme Cloud Inc".data from by decide]
  rw [pyReplace_single]
  rw [show (("Acme Cloud Inc" : String).data.map (fun x => if x = '-' then ' ' else x)) =
    "Acme Cloud Inc".data from by decide]
  rw [pySplitWs_acme]
  decide

theorem pySplitWs_inc : pySplitWs "Inc".data = ["Inc".data] := by
  rw [show ("Inc" : String).data = 'I' :: "nc".data from rfl, pySplitWs_cons]
  rw [if_neg (by decide)]
  rw [show ("nc" : String).data.takeWhile (fun x => !isWsChar x) = "nc".data from by decide]
  rw [show ("nc" : String).data.dropWhile (fun x => !isWsChar x) = ([] : List Char) from by decide]
  rw [pySplitWs_nil]

theorem cleanIsp_stopwords : cleanIspName "Inc." = "Unknown" := by
  unfold cleanIspName
  rw [if_neg (by decide)]
  dsimp only
  rw [pyReplace_delete, pyReplace_delete]
  rw [show ((("Inc." : String).data.filter (fun x => x != '.')).filter
      (fun x => x != ',')) = "Inc".data from by decide]
  rw [pyStrip_id _ (by decide)]
  rw [pyReplace_single]
  rw [show (("Inc" : String).data.map (fun x => if x = '-' then ' ' else x)) =
    "Inc".data from by decide]
  rw [pySplitWs_inc]
  decide

theorem parseQs_insecure :
    parseQs ("insecure=0&sni=x" : String).data = [("insecure", "0"), ("sni", "x")] := by
  unfold parseQs
  rw [show ("insecure=0&sni=x" : String).data =
    "insecure=0".data ++ '&' :: "sni=x".data from rfl]
  rw [splitOnChar_app (by decide), splitOnChar_no (by decide)]
  rfl

/-! ## Claim theorems -/

/-- A fixed resolver mapping every address to country `us` with ISP `Acme`. -/
def resUS : String → String × String := fun _ => ("us", "Acme")

/-- A `main.py` state that has already seen the key `1.2.3.4:7-hysteria2`. -/
def stDup : MainState := ⟨[("US", 1)], ["1.2.3.4:7-hysteria2"], []⟩

/-- A geo environment where both databases are empty and DNS fails. -/
def geoEnvNone : GeoEnv := ⟨fun _ => true, fun _ => none, fun _ => none, fun _ => none⟩

/-- A concrete vmess payload with ASCII fields. -/
def vmessSample : VmessMeta :=
  { ps := "node-1", add := "example.com", port := 8443, id := "uuid-123", aid := 0,
    net := "ws", type := "none", host := "h.example.com", path := "/ws", tls := "tls",
    sni := "sni.example.com" }

/-- A canonical hysteria2 record with no certificate-verification data. -/
def pInsecure : ParsedConfig :=
  { proto := "hysteria2", address := some "h", port := 1, password := some "x" }

/-- The outbound `make_outbound_from_parsed` builds from `pInsecure`. -/
def obInsecure : Outbound :=
  { type := "hysteria2", tag := "UNK 1 - ()", server := "h", server_port := 1,
    password := some "x",
    tls := some { enabled := true, insecure := true, server_name := "h" } }

/-- C1 (amended): `parse_shadowsocks` accepts only the form with
`method:password` base64-encoded before `@host:port`; the form with the entire
`method:password@host:port` base64-encoded as one blob is rejected with `None`,
because the code splits the stripped string on `@` *before* any decoding and
requires exactly two parts.  The original claim, that both forms parse to
identical records, is refuted by `c1_blob_form_rejected`. -/
theorem c1_shadowsocks_userinfo_only (m pw h : String) (n : Nat)
    (hm : ∀ c ∈ m.data, c.toNat < 128 ∧ c ≠ ':')
    (hp : ∀ c ∈ pw.data, c.toNat < 128)
    (hh : ∀ c ∈ h.data, isHostChar c = true) :
    parse_shadowsocks (ssUserinfoForm m pw h n) =
      some { proto := "shadowsocks", address := some h, port := n,
             method := some m, password := some pw } ∧
    parse_shadowsocks (ssBlobForm m pw h n) = none :=
  ⟨parse_ss_userinfo_form m pw h n hm hp hh,
   parse_ss_blob_form m pw h n (fun c hc => (hm c hc).1) hp hh⟩

/-- C1 witness: concrete method `aes`, password `pw`, host `h`, port 443. -/
theorem c1_shadowsocks_userinfo_only_witness :
    parse_shadowsocks (ssUserinfoForm "aes" "pw" "h" 443) =
      some { proto := "shadowsocks", address := some "h", port := 443,
             method := some "aes", password := some "pw" } ∧
    parse_shadowsocks (ssBlobForm "aes" "pw" "h" 443) = none :=
  c1_shadowsocks_userinfo_only "aes" "pw" "h" 443 (by decide) (by decide) (by decide)

/-- C1 counterexample: the blob form of a descriptor parses to `None` while the
userinfo form of the same descriptor parses successfully, so the two forms do
not yield identical records. -/
theorem c1_blob_form_rejected :
    parse_shadowsocks (ssBlobForm "aes" "pw" "h" 443) = none ∧
    parse_shadowsocks (ssUserinfoForm "aes" "pw" "h" 443) ≠ none := by
  refine ⟨parse_ss_blob_form "aes" "pw" "h" 443 (by decide) (by decide) (by decide), ?_⟩
  rw [parse_ss_userinfo_form "aes" "pw" "h" 443 (by decide) (by decide) (by decide)]
  simp

/-- C2: `build_tags_for_addresses` deduplicates keeping first-appearance order,
resolves each unique address exactly once (the resolver trace is `[A, B, C]`
with no duplicates), and numbers tags per country starting at 1: for
`[A, B, A, C]` all in `us`, A gets index 1, B index 2, C index 3, and A's
second occurrence shares A's single tag-map entry. -/
theorem c2_tag_assignment_order (A B C : String) (res : String → String × String)
    (hAB : A ≠ B) (hAC : A ≠ C) (hBC : B ≠ C)
    (hA : (res A).1 = "us") (hB : (res B).1 = "us") (hC : (res C).1 = "us") :
    alist (buildTags res [A, B, A, C]) A = some ("US 1 - " ++ cleanIspName (res A).2) ∧
    alist (buildTags res [A, B, A, C]) B = some ("US 2 - " ++ cleanIspName (res B).2) ∧
    alist (buildTags res [A, B, A, C]) C = some ("US 3 - " ++ cleanIspName (res C).2) ∧
    buildTagsTrace res [A, B, A, C] = [A, B, C] ∧
    (buildTagsTrace res [A, B, A, C]).Nodup :=
  buildTags_ABAC A B C res hAB hAC hBC hA hB hC

/-- C2 witness: addresses `a`, `b`, `c` under the fixed resolver `resUS`. -/
theorem c2_tag_assignment_order_witness :
    alist (buildTags resUS ["a", "b", "a", "c"]) "a" =
      some ("US 1 - " ++ cleanIspName (resUS "a").2) ∧
    alist (buildTags resUS ["a", "b", "a", "c"]) "b" =
      some ("US 2 - " ++ cleanIspName (resUS "b").2) ∧
    alist (buildTags resUS ["a", "b", "a", "c"]) "c" =
      some ("US 3 - " ++ cleanIspName (resUS "c").2) ∧
    buildTagsTrace resUS ["a", "b", "a", "c"] = ["a", "b", "c"] ∧
    (buildTagsTrace resUS ["a", "b", "a", "c"]).Nodup :=
  c2_tag_assignment_order "a" "b" "c" resUS (by decide) (by decide) (by decide) rfl rfl rfl

/-- C3 (amended): in `generate_singbox_config.py` a duplicate address is
deduplicated before tagging, so appending an already-seen address leaves the
tag map unchanged; but in `main.py` the claimed invariant fails:
`format_proxy_name` bumps the per-country counter *before* the
`servers_list` duplicate check, so a record whose `server:port` key was
already seen still increments the counter even though no proxy is added.
The original claim, that a duplicate never causes the counter to increase in
every pipeline variant, is refuted by `c3_main_counter_bumps_on_duplicate`. -/
theorem c3_duplicate_counter_amended (res : String → String × String)
    (addrs : List String) (a : String) (ha : a ∈ addrs)
    (env : MainEnv) (auth : String) (t : Hy2Tls) (server : String) (n : Nat)
    (st : MainState)
    (hserver : ∀ c ∈ server.data, c ≠ ':')
    (hip : is_ipv4_or_domain env server = true)
    (hkey : server ++ ":" ++ natRepr n ++ "-hysteria2" ∈ st.serversList) :
    buildTags res (addrs ++ [a]) = buildTags res addrs ∧
    (process_hysteria2 env ⟨server ++ ":" ++ natRepr n, auth, t⟩ st).extracted =
      st.extracted ∧
    alist (process_hysteria2 env ⟨server ++ ":" ++ natRepr n, auth, t⟩ st).countryCounters
        (get_physical_location env server) =
      some ((alist st.countryCounters (get_physical_location env server)).getD 0 + 1) :=
  ⟨buildTags_append_dup res addrs a ha,
   (process_hysteria2_dup env auth t server n st hserver hip hkey).1,
   (process_hysteria2_dup env auth t server n st hserver hip hkey).2.2⟩

/-- C3 witness: the duplicate `1.2.3.4:7` against a state that already holds
its key. -/
theorem c3_duplicate_counter_amended_witness :
    buildTags resUS (["a"] ++ ["a"]) = buildTags resUS ["a"] ∧
    (process_hysteria2 envUS ⟨"1.2.3.4" ++ ":" ++ natRepr 7, "pw", ⟨true, "s"⟩⟩
        stDup).extracted = stDup.extracted ∧
    alist (process_hysteria2 envUS ⟨"1.2.3.4" ++ ":" ++ natRepr 7, "pw", ⟨true, "s"⟩⟩
          stDup).countryCounters
        (get_physical_location envUS "1.2.3.4") =
      some ((alist stDup.countryCounters (get_physical_location envUS "1.2.3.4")).getD 0 + 1) :=
  c3_duplicate_counter_amended resUS ["a"] "a" (by decide) envUS "pw" ⟨true, "s"⟩
    "1.2.3.4" 7 stDup (by decide) rfl (by rw [natRepr_small (by norm_num)]; decide)

/-- C3 counterexample: feeding the same hysteria2 payload twice leaves a single
extracted proxy `US-01`, yet the `US` counter stands at 2 — the duplicate
advanced it. -/
theorem c3_main_counter_bumps_on_duplicate :
    alist (process_hysteria2 envUS hy2Sample
        (process_hysteria2 envUS hy2Sample mainState0)).countryCounters "US" = some 2 ∧
    (process_hysteria2 envUS hy2Sample
        (process_hysteria2 envUS hy2Sample mainState0)).extracted.map ClashProxy.name =
      ["US-01"] :=
  process_hysteria2_sample_twice

/-- C4 (amended): for every canonical record of a TLS-capable protocol (vmess,
vless, trojan, hysteria2), the built outbound's TLS sub-object has `insecure`
unconditionally set to `true` — the builder writes the literal `True` in every
TLS branch and never consults the source descriptor, so a verification flag
supplied by the source is *not* carried over.  The original claim's carry-over
clause is refuted by `c4_insecure_flag_ignored`. -/
theorem c4_tls_always_insecure (p : ParsedConfig) (tm : List (String × String))
    (ob : Outbound)
    (hp : p.proto = "vmess" ∨ p.proto = "vless" ∨ p.proto = "trojan" ∨
      p.proto = "hysteria2")
    (h : make_outbound_from_parsed p tm = some ob) :
    ∃ t, ob.tls = some t ∧ t.insecure = true :=
  outbound_tls_insecure p tm ob hp h

/-- C4 witness: the hysteria2 record `pInsecure` builds the outbound
`obInsecure`, whose TLS sub-object is insecure. -/
theorem c4_tls_always_insecure_witness :
    ∃ t, obInsecure.tls = some t ∧ t.insecure = true :=
  c4_tls_always_insecure pInsecure [] obInsecure (by decide) (by decide)

/-- C4 counterexample: a vless descriptor whose query explicitly carries
`insecure=0` still yields an outbound with `insecure = true`: the source's
verification flag is ignored, not carried over. -/
theorem c4_insecure_flag_ignored :
    qsGetD (parseQs ("insecure=0&sni=x" : String).data) "insecure" "1" = "0" ∧
    ∃ p, parse_vless (renderUrlNoPort "vless" "u" "h" "insecure=0&sni=x" "f") = some p ∧
      ∃ ob t, make_outbound_from_parsed p [] = some ob ∧ ob.tls = some t ∧
        t.insecure = true := by
  refine ⟨by rw [parseQs_insecure]; rfl, ?_⟩
  refine ⟨_, parse_vless_noPort "u" "h" "insecure=0&sni=x" "f" (by decide) (by decide)
    (by decide) (by decide), ?_⟩
  unfold make_outbound_from_parsed
  rw [if_neg (by simp)]
  dsimp only
  rw [if_neg (by decide), if_pos rfl]
  exact ⟨_, _, rfl, rfl, rfl⟩

/-- C5 (amended): the `process_configs` filter keeps a record iff the compiled
protocol pattern matches its `proto` and the compiled country pattern matches
the first word of its tag — but matching is case-insensitive *substring*
search (`re.search` over literal alternatives), not membership in the list,
and an empty entry list compiles to the pattern `()` which matches every
string.  The original claim's membership ("appear in the allow-lists") reading
is refuted by `c5_substring_not_membership`. -/
theorem c5_filter_substring_matching (protocols countries : List String)
    (tagMap : List (String × String)) (p : ParsedConfig) :
    keepRecord protocols countries tagMap p = true ↔
      ((patternOf protocols = [] ∨
        ∃ e ∈ patternOf protocols, ∃ pre post,
          (lowerStr p.proto).data = pre ++ (lowerStr e).data ++ post) ∧
       (patternOf countries = [] ∨
        ∃ e ∈ patternOf countries, ∃ pre post,
          (lowerStr (firstWord ((alist tagMap (p.address.getD "")).getD ""))).data =
            pre ++ (lowerStr e).data ++ post)) :=
  keepRecord_iff protocols countries tagMap p

/-- C5 counterexample: with the protocol allow-list `["less"]`, a `vless`
record is kept although `vless` is not an element of the list — `less` matches
as a substring. -/
theorem c5_substring_not_membership :
    keepRecord ["less"] ["us"] [("h", "US 1 - X")]
      { proto := "vless", address := some "h" } = true ∧
    ("vless" : String) ∉ (["less"] : List String) := by
  constructor
  · decide
  · decide

/-- C6: encoding a canonical vmess record to a `vmess://` URL (base64 of the
JSON payload, as `write_proxy_urls_file` does) and re-parsing that URL with
`parse_any` yields a record equal to the original on every field present in
both directions: address/add, port, id, net, path, host and tls.  The string
fields are restricted to printable ASCII without quote or backslash, on which
`json.dumps` performs no escaping. -/
theorem c6_vmess_roundtrip (m : VmessMeta)
    (hps : ∀ c ∈ m.ps.data, jsonSafeChar c = true)
    (hadd : ∀ c ∈ m.add.data, jsonSafeChar c = true)
    (hid : ∀ c ∈ m.id.data, jsonSafeChar c = true)
    (hnet : ∀ c ∈ m.net.data, jsonSafeChar c = true)
    (hty : ∀ c ∈ m.type.data, jsonSafeChar c = true)
    (hhost : ∀ c ∈ m.host.data, jsonSafeChar c = true)
    (hpath : ∀ c ∈ m.path.data, jsonSafeChar c = true)
    (htls : ∀ c ∈ m.tls.data, jsonSafeChar c = true)
    (hsni : ∀ c ∈ m.sni.data, jsonSafeChar c = true) :
    parse_any (write_vmess_url m) =
      some { proto := "vmess", address := some m.add, port := m.port,
             id := some m.id, net := some m.net, path := some m.path,
             host := some m.host, tls := some m.tls } :=
  vmess_roundtrip m hps hadd hid hnet hty hhost hpath htls hsni

/-- C6 witness: the concrete payload `vmessSample` round-trips. -/
theorem c6_vmess_roundtrip_witness :
    parse_any (write_vmess_url vmessSample) =
      some { proto := "vmess", address := some vmessSample.add,
             port := vmessSample.port, id := some vmessSample.id,
             net := some vmessSample.net, path := some vmessSample.path,
             host := some vmessSample.host, tls := some vmessSample.tls } :=
  c6_vmess_roundtrip vmessSample (by decide) (by decide) (by decide) (by decide)
    (by decide) (by decide) (by decide) (by decide) (by decide)

/-- C7: for every valid vless or trojan descriptor URL of the form
`scheme://credential@host?query#fragment` that omits the port, the parser
succeeds and the parsed record's port equals 443. -/
theorem c7_port_defaults_443 (u host q f : String)
    (hu : ∀ c ∈ u.data, isHostChar c = true)
    (hh : ∀ c ∈ host.data, isHostChar c = true) (hne : host.data ≠ [])
    (hq : '#' ∉ q.data) :
    (∃ p, parse_vless (renderUrlNoPort "vless" u host q f) = some p ∧ p.port = 443) ∧
    (∃ p, parse_trojan (renderUrlNoPort "trojan" u host q f) = some p ∧ p.port = 443) :=
  ⟨⟨_, parse_vless_noPort u host q f hu hh hne hq, rfl⟩,
   ⟨_, parse_trojan_noPort u host q f hu hh hne hq, rfl⟩⟩

/-- C7 witness: credential `u`, host `h`, query `a=b`, empty fragment. -/
theorem c7_port_defaults_443_witness :
    (∃ p, parse_vless (renderUrlNoPort "vless" "u" "h" "a=b" "") = some p ∧
      p.port = 443) ∧
    (∃ p, parse_trojan (renderUrlNoPort "trojan" "u" "h" "a=b" "") = some p ∧
      p.port = 443) :=
  c7_port_defaults_443 "u" "h" "a=b" "" (by decide) (by decide) (by decide) (by decide)

/-- C8: on a cache miss the geo resolver returns a pair of strings along
every path: a failed country lookup yields `""` for the country field, a
failed organization lookup yields `""` for that field, and an address unknown
to both databases yields `("", "")`.  (The function is total by construction —
every failure of a collaborator is a `none` value, never an exception.) -/
theorem c8_geo_resolver_failures (env : GeoEnv)
    (cache : List (String × (String × String))) (host : String)
    (hmiss : alist cache host = none) :
    (env.countryDb (if env.isIp host then host else ((env.dns host).getD host)) = none →
      ((get_country_and_isp env cache host).1).1 = "") ∧
    (env.asnDb (if env.isIp host then host else ((env.dns host).getD host)) = none →
      ((get_country_and_isp env cache host).1).2 = "") ∧
    (env.countryDb (if env.isIp host then host else ((env.dns host).getD host)) = none →
      env.asnDb (if env.isIp host then host else ((env.dns host).getD host)) = none →
      (get_country_and_isp env cache host).1 = ("", "")) :=
  get_country_and_isp_failures env cache host hmiss

/-- C8 witness: with both databases empty, the documentation address
`203.0.113.9` resolves to `("", "")`. -/
theorem c8_geo_resolver_failures_witness :
    (get_country_and_isp geoEnvNone [] "203.0.113.9").1 = ("", "") :=
  (c8_geo_resolver_failures geoEnvNone [] "203.0.113.9" rfl).2.2 rfl rfl

/-- C9: `clean_isp_name` computes exactly the spec's cleanup — strip periods
and commas, split on whitespace and hyphens, drop stopword tokens
case-insensitively, keep the first two remaining tokens joined by a space,
`Unknown` when none remain (`cleanIspSpec` is modelled from the spec's words;
the code additionally maps empty input to `Unknown` first, which coincides) —
and on the spec's examples `Acme Cloud, Inc.` yields `Acme` (the stopword set
contains `CLOUD` and `INC`) and the all-stopword input `Inc.` yields
`Unknown`. -/
theorem c9_clean_isp_cleanup :
    (∀ s : String, cleanIspName s = cleanIspSpec s) ∧
    cleanIspName "Acme Cloud, Inc." = "Acme" ∧
    cleanIspName "Inc." = "Unknown" ∧
    "CLOUD" ∈ STOPWORDS ∧ "INC" ∈ STOPWORDS :=
  ⟨cleanIspName_eq_spec, cleanIsp_acme, cleanIsp_stopwords, by decide, by decide⟩

/-- C10: a hysteria2 descriptor whose non-empty query contains a piece whose
full split on `=` does not have exactly two parts — a piece with no `=`, or a
value containing a further `=` such as base64 padding — makes `parse_hysteria2`
return `None`: the naive `dict(pair.split('=') for ...)` raises `ValueError`,
which the caller catches into `None`. -/
theorem c10_hysteria2_malformed_query (config : String)
    (hq : (urlparse config.data).query ≠ [])
    (hmal : ∃ p ∈ splitOnChar '&' (urlparse config.data).query,
      (splitOnChar '=' p).length ≠ 2) :
    parse_hysteria2 config = none :=
  parse_hysteria2_malformed_query config hq hmal

/-- C10 witness: the URL `hysteria2://pw@h:1?a` has the equal-sign-free query
piece `a`, and fails to parse. -/
theorem c10_hysteria2_malformed_query_witness :
    parse_hysteria2 "hysteria2://pw@h:1?a" = none :=
  c10_hysteria2_malformed_query "hysteria2://pw@h:1?a" (by decide)
    ⟨(urlparse ("hysteria2://pw@h:1?a" : String).data).query, by
      rw [splitOnChar_no (show ('&' : Char) ∉
        (urlparse ("hysteria2://pw@h:1?a" : String).data).query from by decide)]
      simp, by
      rw [splitOnChar_no (show ('=' : Char) ∉
        (urlparse ("hysteria2://pw@h:1?a" : String).data).query from by decide)]
      simp⟩

end GeoAsset
